import Mathlib

/-!
Verification of the Redis cache-aside layer in `src/services/cache.py`
(`CacheStats`, `RedisCache.get/set/delete`, `_serialize`/`_deserialize`,
`cache_key_generator`, the `cache_aside` decorator's `wrapper`,
`_invalidate_cache`, `_get_cache_ttl`).

Embedding conventions:
* Python values that flow through the cache are modelled by `PyVal`
  (JSON-native constructors plus `date`, a stand-in for any non-JSON-native
  object carrying its `str()` form).  JSON-native values, i.e. the results
  of `json.loads`, are modelled by `JVal`; `JVal.null` is Python `None`.
* The `json` standard library (external to the repository) is modelled by a
  concrete JSON printer (`render`) and parser (`parseValue`): numbers are
  integers, strings escape the quote and backslash characters (CPython
  additionally escapes control and non-ASCII characters, which is
  irrelevant to round-tripping), and the printer uses CPython's default
  item and key separators.
* `hashlib.md5(...).hexdigest()[:8]` (external library) is modelled by
  `md5hex8`, an arbitrary deterministic 8-hex-character digest; the claims
  rely only on its determinism and fixed width.
* The remote Redis store is a partial map from keys to (payload, ttl);
  network exceptions are modelled by explicit fault flags, wall-clock
  durations by a nonnegative rational parameter.
-/

/-! ## JSON-native values (results of json.loads) -/

mutual

inductive JVal where
  | null : JVal
  | bool (b : Bool) : JVal
  | num (n : Int) : JVal
  | str (s : String) : JVal
  | arr (l : JArr) : JVal
  | obj (l : JObj) : JVal

inductive JArr where
  | nil : JArr
  | cons (hd : JVal) (tl : JArr) : JArr

inductive JObj where
  | nil : JObj
  | cons (key : String) (val : JVal) (tl : JObj) : JObj

end

/-- Mirror of the Python check `x is None` for JSON-native values. -/
def JVal.isNull : JVal → Bool
  | .null => true
  | _ => false

/-! ## Python values passed to / returned from cached producers -/

mutual

inductive PyVal where
  | null : PyVal
  | bool (b : Bool) : PyVal
  | int (n : Int) : PyVal
  | str (s : String) : PyVal
  | date (s : String) : PyVal
  | list (l : PyList) : PyVal
  | dict (d : PyDict) : PyVal

inductive PyList where
  | nil : PyList
  | cons (hd : PyVal) (tl : PyList) : PyList

inductive PyDict where
  | nil : PyDict
  | cons (key : String) (val : PyVal) (tl : PyDict) : PyDict

end

/-- Mirror of the Python check `x is None`. -/
def PyVal.isNull : PyVal → Bool
  | .null => true
  | _ => false

mutual

/-- Coercion applied by `json.dumps(value, default=str)`: JSON-native values
are kept, any other object (modelled by `PyVal.date`) is replaced by its
`str()` form. -/
def toJson : PyVal → JVal
  | .null => .null
  | .bool b => .bool b
  | .int n => .num n
  | .str s => .str s
  | .date s => .str s
  | .list l => .arr (toJsonList l)
  | .dict d => .obj (toJsonDict d)

def toJsonList : PyList → JArr
  | .nil => .nil
  | .cons v tl => .cons (toJson v) (toJsonList tl)

def toJsonDict : PyDict → JObj
  | .nil => .nil
  | .cons k v tl => .cons k (toJson v) (toJsonDict tl)

end

mutual

/-- Embedding of JSON-native values back into Python values. -/
def ofJson : JVal → PyVal
  | .null => .null
  | .bool b => .bool b
  | .num n => .int n
  | .str s => .str s
  | .arr l => .list (ofJsonArr l)
  | .obj l => .dict (ofJsonObj l)

def ofJsonArr : JArr → PyList
  | .nil => .nil
  | .cons v tl => .cons (ofJson v) (ofJsonArr tl)

def ofJsonObj : JObj → PyDict
  | .nil => .nil
  | .cons k v tl => .cons k (ofJson v) (ofJsonObj tl)

end

/-! ## JSON printing (model of json.dumps output text) -/

/-- Decimal digits of a natural number, most significant first (fuel-based so
that it reduces in the kernel). -/
def natDigitsAux : Nat → Nat → List Char
  | 0, _ => []
  | fuel + 1, n =>
    if n < 10 then [Char.ofNat (48 + n)]
    else natDigitsAux fuel (n / 10) ++ [Char.ofNat (48 + n % 10)]

def natDigits (n : Nat) : List Char := natDigitsAux (n + 1) n

/-- Decimal rendering of an integer, as CPython prints `int` inside JSON. -/
def intChars (n : Int) : List Char :=
  if n < 0 then '-' :: natDigits n.natAbs else natDigits n.toNat

/-- JSON string escaping for the quote and backslash characters. -/
def escapeChars : List Char → List Char
  | [] => []
  | c :: cs =>
    if c = '"' ∨ c = '\\' then '\\' :: c :: escapeChars cs
    else c :: escapeChars cs

/-- A JSON string literal: quote, escaped body, quote. -/
def renderStr (s : String) : List Char := '"' :: (escapeChars s.data ++ ['"'])

mutual

/-- JSON text of a value, with CPython's default separators
(comma-space between items, colon-space after keys). -/
def render : JVal → List Char
  | .null => "null".data
  | .bool true => "true".data
  | .bool false => "false".data
  | .num n => intChars n
  | .str s => renderStr s
  | .arr .nil => ['[', ']']
  | .arr (.cons v tl) => '[' :: (renderElems (.cons v tl) ++ [']'])
  | .obj .nil => ['{', '}']
  | .obj (.cons k v tl) => '{' :: (renderMembers (.cons k v tl) ++ ['}'])

def renderElems : JArr → List Char
  | .nil => []
  | .cons v .nil => render v
  | .cons v (.cons w tl) => render v ++ (',' :: ' ' :: renderElems (.cons w tl))

def renderMembers : JObj → List Char
  | .nil => []
  | .cons k v .nil => renderStr k ++ (':' :: ' ' :: render v)
  | .cons k v (.cons k2 w tl) =>
    renderStr k ++ (':' :: ' ' :: render v) ++
      (',' :: ' ' :: renderMembers (.cons k2 w tl))

end

/- Size measure used as parser fuel bound. -/
mutual

def jsize : JVal → Nat
  | .arr l => jsizeArr l + 2
  | .obj l => jsizeObj l + 2
  | _ => 1

def jsizeArr : JArr → Nat
  | .nil => 0
  | .cons v tl => jsize v + jsizeArr tl

def jsizeObj : JObj → Nat
  | .nil => 0
  | .cons _ v tl => jsize v + jsizeObj tl

end

/-! ## JSON parsing (model of json.loads) -/

/-- Greedy decimal-digit scanner. -/
def readDigits (acc : Nat) : List Char → Nat × List Char
  | [] => (acc, [])
  | c :: cs =>
    if c.isDigit then readDigits (acc * 10 + (c.toNat - 48)) cs
    else (acc, c :: cs)

def skipSpaces : List Char → List Char
  | [] => []
  | c :: rest => if c = ' ' then skipSpaces rest else c :: rest

/-- Body of a JSON string literal after the opening quote: plain characters
until an unescaped quote, with the two escapes the printer emits. -/
def parseStrBody : List Char → Option (List Char × List Char)
  | [] => Option.none
  | '"' :: rest => some ([], rest)
  | '\\' :: c :: rest =>
    if c = '"' ∨ c = '\\' then (parseStrBody rest).map (fun p => (c :: p.1, p.2))
    else Option.none
  | c :: rest => (parseStrBody rest).map (fun p => (c :: p.1, p.2))

mutual

def parseValue : Nat → List Char → Option (JVal × List Char)
  | 0, _ => Option.none
  | fuel + 1, input =>
    match input with
    | [] => Option.none
    | c :: rest =>
      if c.isDigit then
        let p := readDigits 0 (c :: rest)
        some (.num (Int.ofNat p.1), p.2)
      else
        match c, rest with
        | 'n', 'u' :: 'l' :: 'l' :: r => some (.null, r)
        | 't', 'r' :: 'u' :: 'e' :: r => some (.bool true, r)
        | 'f', 'a' :: 'l' :: 's' :: 'e' :: r => some (.bool false, r)
        | '"', r => (parseStrBody r).map (fun p => (.str (String.mk p.1), p.2))
        | '-', r =>
          match r with
          | c2 :: r2 =>
            if c2.isDigit then
              let p := readDigits 0 (c2 :: r2)
              some (.num (-(Int.ofNat p.1)), p.2)
            else Option.none
          | [] => Option.none
        | '[', r =>
          (match skipSpaces r with
           | ']' :: r2 => some (.arr .nil, r2)
           | r2 => (parseElems fuel r2).map (fun p => (.arr p.1, p.2)))
        | '{', r =>
          (match skipSpaces r with
           | '}' :: r2 => some (.obj .nil, r2)
           | r2 => (parseMembers fuel r2).map (fun p => (.obj p.1, p.2)))
        | _, _ => Option.none

def parseElems : Nat → List Char → Option (JArr × List Char)
  | 0, _ => Option.none
  | fuel + 1, input =>
    match parseValue fuel input with
    | Option.none => Option.none
    | some (v, r) =>
      match r with
      | ']' :: r2 => some (.cons v .nil, r2)
      | ',' :: r2 => (parseElems fuel (skipSpaces r2)).map (fun p => (.cons v p.1, p.2))
      | _ => Option.none

def parseMembers : Nat → List Char → Option (JObj × List Char)
  | 0, _ => Option.none
  | fuel + 1, input =>
    match input with
    | '"' :: r =>
      (match parseStrBody r with
       | Option.none => Option.none
       | some (k, r1) =>
         match r1 with
         | ':' :: r2 =>
           (match parseValue fuel (skipSpaces r2) with
            | Option.none => Option.none
            | some (v, r3) =>
              match r3 with
              | '}' :: r4 => some (.cons (String.mk k) v .nil, r4)
              | ',' :: r4 =>
                (parseMembers fuel (skipSpaces r4)).map
                  (fun p => (.cons (String.mk k) v p.1, p.2))
              | _ => Option.none)
         | _ => Option.none)
    | _ => Option.none

end

/-- Model of `json.dumps(v)` for a JSON-native value. -/
def jsonDumps (v : JVal) : String := String.mk (render v)

/-- Model of `json.loads(s)`: a full parse of the input; `Option.none` models
the `ValueError` raised on malformed text. -/
def jsonParse (s : String) : Option JVal :=
  match parseValue (s.data.length + 1) s.data with
  | some (v, []) => some v
  | _ => Option.none



/-! ## Serialization layer of the engine (`RedisCache._serialize` / `_deserialize`) -/

/-- Model of `RedisCache._serialize` (cache.py lines 209-213): `None` becomes
the empty byte string, anything else its UTF-8 JSON text with non-native
values coerced through `str` (`json.dumps(value, default=str)`). -/
def _serialize (value : PyVal) : String :=
  if value.isNull then "" else jsonDumps (toJson value)

/-- Model of `RedisCache._deserialize` (cache.py lines 215-219): empty data is
`None`, otherwise a JSON parse; `Option.none` models the exception raised on
malformed payloads. -/
def _deserialize (data : String) : Option JVal :=
  if data = "" then some JVal.null else jsonParse data

/-! ## Cache statistics (`CacheStats`, cache.py lines 22-83) -/

structure CacheStats where
  hits : Nat
  misses : Nat
  errors : Nat
  total_requests : Nat
  hit_time_sum : ℚ
  miss_time_sum : ℚ
  last_reset : ℚ

/-- The freshly constructed statistics record (all dataclass defaults 0). -/
def CacheStats.init (now : ℚ) : CacheStats :=
  { hits := 0, misses := 0, errors := 0, total_requests := 0,
    hit_time_sum := 0, miss_time_sum := 0, last_reset := now }

/-- `CacheStats.hit_rate` (lines 33-38). -/
def CacheStats.hit_rate (s : CacheStats) : ℚ :=
  if s.total_requests = 0 then 0 else (s.hits : ℚ) / (s.total_requests : ℚ)

/-- `CacheStats.miss_rate` (lines 40-45). -/
def CacheStats.miss_rate (s : CacheStats) : ℚ :=
  if s.total_requests = 0 then 0 else (s.misses : ℚ) / (s.total_requests : ℚ)

/-- `CacheStats.avg_hit_time` (lines 47-52), in milliseconds. -/
def CacheStats.avg_hit_time (s : CacheStats) : ℚ :=
  if s.hits = 0 then 0 else s.hit_time_sum / (s.hits : ℚ) * 1000

/-- `CacheStats.avg_miss_time` (lines 54-59), in milliseconds. -/
def CacheStats.avg_miss_time (s : CacheStats) : ℚ :=
  if s.misses = 0 then 0 else s.miss_time_sum / (s.misses : ℚ) * 1000

/-- `CacheStats.reset` (lines 75-83); `now` is the reading of `time.time()`. -/
def CacheStats.reset (s : CacheStats) (now : ℚ) : CacheStats :=
  { s with hits := 0, misses := 0, errors := 0, total_requests := 0,
           hit_time_sum := 0, miss_time_sum := 0, last_reset := now }

/-! ## Cache configuration (`CacheConfig`, cache.py lines 86-97) -/

structure CacheConfig where
  ttl : Int
  key_prefix : String
  version : String

/-- Reader for the configured prefix (the `key_prefix` dataclass field). -/
def CacheConfig.prefixStr (c : CacheConfig) : String := CacheConfig.key_prefix c

/-- `CacheConfig.get_ttl_seconds` (lines 95-97). -/
def CacheConfig.get_ttl_seconds (c : CacheConfig) : Int := c.ttl

/-! ## The engine state and its primitive operations -/

/-- State of one `RedisCache` instance: the `is_connected()` outcome, the
remote keyspace (payload text and the TTL it was stored with; expiry is owned
by the remote store and not part of the claims), and the stats object. -/
structure RedisState where
  connected : Bool
  store : String → Option (String × Option Int)
  stats : CacheStats

/-- Model of `RedisCache.get` (cache.py lines 221-255).  `fault` models
`redis.Redis.get` raising (connectivity error); a fetched payload that fails
to deserialize raises inside the `try` after the hit counters were bumped.
`elapsed` is the measured wall-clock duration of the remote fetch. -/
def RedisCache.get (st : RedisState) (key : String) (default : JVal)
    (fault : Bool) (elapsed : ℚ) : JVal × CacheStats :=
  if st.connected = false then
    (default, { st.stats with errors := st.stats.errors + 1 })
  else
    let s1 := { st.stats with total_requests := st.stats.total_requests + 1 }
    if fault then (default, { s1 with errors := s1.errors + 1 })
    else
      match st.store key with
      | some entry =>
        let s2 := { s1 with hits := s1.hits + 1,
                            hit_time_sum := s1.hit_time_sum + elapsed }
        (match _deserialize entry.1 with
         | some v => (v, s2)
         | Option.none => (default, { s2 with errors := s2.errors + 1 }))
      | Option.none =>
        (default, { s1 with misses := s1.misses + 1,
                            miss_time_sum := s1.miss_time_sum + elapsed })

/-- Model of `RedisCache.set` (cache.py lines 257-298) as used by the wrapper
(no `nx`/`xx`); `fault` models `redis.Redis.set` raising. -/
def RedisCache.set (st : RedisState) (key : String) (value : PyVal)
    (ttl : Option Int) (fault : Bool) : Bool × RedisState :=
  if st.connected = false then (false, st)
  else if fault then
    (false, { st with stats := { st.stats with errors := st.stats.errors + 1 } })
  else
    (true, { st with store := fun k =>
      if k = key then some (_serialize value, ttl) else st.store k })

/-- Model of `RedisCache.delete` (cache.py lines 300-310): returns
`bool(client.delete(key))`, i.e. whether a key was actually removed; errors
are logged and yield `False` without touching the stats. -/
def RedisCache.delete (st : RedisState) (key : String) (fault : Bool) :
    Bool × RedisState :=
  if st.connected = false then (false, st)
  else if fault then (false, st)
  else
    match st.store key with
    | some _ =>
      (true, { st with store := fun k => if k = key then Option.none else st.store k })
    | Option.none => (false, st)

/-! ## Key generation (`cache_key_generator`, cache.py lines 406-441) -/

/-- Stand-in for `hashlib.md5(s.encode()).hexdigest()[:8]` (external library):
a deterministic 8-hex-character digest of the string. -/
def md5hex8 (s : String) : String :=
  let h := s.data.foldl (fun a c => (a * 131 + c.toNat) % 4294967296) 5381
  String.mk ((List.range 8).map (fun i =>
    Nat.digitChar (h / 16 ^ (7 - i) % 16)))

mutual

/-- Model of Python `str()` on argument values: faithful on scalars
(`str(1) = "1"`, `str(True) = "True"`, `str(None) = "None"`, dates print
their ISO form); containers are printed in Python display style except that
nested strings are not repr-quoted (no claim depends on container
arguments). -/
def pyStr : PyVal → String
  | .null => "None"
  | .bool true => "True"
  | .bool false => "False"
  | .int n => toString n
  | .str s => s
  | .date s => s
  | .list l => "[" ++ pyStrList l ++ "]"
  | .dict d => "\x7b" ++ pyStrDict d ++ "\x7d"

def pyStrList : PyList → String
  | .nil => ""
  | .cons v .nil => pyStr v
  | .cons v (.cons w tl) => pyStr v ++ ", " ++ pyStrList (.cons w tl)

def pyStrDict : PyDict → String
  | .nil => ""
  | .cons k v .nil => k ++ ": " ++ pyStr v
  | .cons k v (.cons k2 w tl) => k ++ ": " ++ pyStr v ++ ", " ++ pyStrDict (.cons k2 w tl)

end

/-- Keyword arguments of a Python call, in supply order (a Python dict, so
keys are pairwise distinct). -/
abbrev KwArgs := List (String × PyVal)

/-- Lexicographic code-point comparison of character lists, as CPython
compares strings when sorting dictionary keys. -/
def strLeb : List Char → List Char → Bool
  | [], _ => true
  | _ :: _, [] => false
  | a :: as, b :: bs =>
    if a.toNat < b.toNat then true
    else if b.toNat < a.toNat then false
    else strLeb as bs

def strLe (a b : String) : Bool := strLeb a.data b.data

/-- Insertion of a pair into a key-sorted association list. -/
def insKey (p : String × PyVal) : List (String × PyVal) → List (String × PyVal)
  | [] => [p]
  | q :: qs => if strLe p.1 q.1 then p :: q :: qs else q :: insKey p qs

/-- Sorting by key, modelling `json.dumps(..., sort_keys=True)`. -/
def sortByKey : List (String × PyVal) → List (String × PyVal)
  | [] => []
  | p :: ps => insKey p (sortByKey ps)

/-- JSON object built from an association list of Python values, coercing the
values as `json.dumps(..., default=str)` does. -/
def toJObj : List (String × PyVal) → JObj
  | [] => .nil
  | p :: ps => .cons p.1 (toJson p.2) (toJObj ps)

/-- Model of `cache_key_generator` (cache.py lines 406-441): parts are the
prefix (Python parameter name `prefix`), the version, the `str` form of each
non-`None` positional argument, and — when the keyword map filtered of
`None` values is nonempty — the truncated digest of its sorted JSON dump;
joined with colons. -/
def cache_key_generator (pfx version : String) (args : List PyVal)
    (kwargs : KwArgs) : String :=
  let parts := [pfx, version] ++ (args.filter (fun a => !a.isNull)).map pyStr
  let parts :=
    if kwargs.isEmpty then parts
    else
      let params := kwargs.filter (fun p => !p.2.isNull)
      if params.isEmpty then parts
      else parts ++ [md5hex8 (jsonDumps (JVal.obj (toJObj (sortByKey params))))]
  String.intercalate ":" parts

/-! ## The cache-aside wrapper (`cache_aside`, cache.py lines 444-518) -/

/-- The cache key the wrapper computes (cache.py lines 480-491).  The guard
`args and hasattr(args[0], "__class__")` is true for every nonempty argument
tuple, because every Python object has a `__class__` attribute, so the first
positional argument is always dropped.  An empty `key_prefix` falls back to
`func.__name__` (`config.key_prefix or func.__name__`). -/
def cache_aside_key (cfg : CacheConfig)
    (key_func : Option (List PyVal → KwArgs → String)) (funcName : String)
    (args : List PyVal) (kwargs : KwArgs) : String :=
  match key_func with
  | some f => f args kwargs
  | Option.none =>
    let key_args := if args.isEmpty then args else args.tail
    cache_key_generator
      (if cfg.prefixStr = "" then funcName else cfg.prefixStr)
      cfg.version key_args kwargs

/-- Result of one call of the wrapped operation: the value returned to the
caller, the engine state afterwards, and how many times the producer ran. -/
structure WrapResult where
  value : PyVal
  state : RedisState
  calls : Nat

/-- Model of the `wrapper` closure produced by `cache_aside` (cache.py lines
468-509) with a resolved engine: fail-open when disconnected, key
computation, engine `get` (default `None`), hit short-circuit, producer call
on miss, `set` with the configured TTL only for non-`None` results.
`gFault`/`sFault` model exceptions inside the engine's `get`/`set`. -/
def cache_aside_wrapper (cfg : CacheConfig)
    (key_func : Option (List PyVal → KwArgs → String)) (funcName : String)
    (producer : List PyVal → KwArgs → PyVal) (st : RedisState)
    (args : List PyVal) (kwargs : KwArgs) (gFault sFault : Bool)
    (elapsed : ℚ) : WrapResult :=
  if st.connected = false then ⟨producer args kwargs, st, 1⟩
  else
    let cache_key := cache_aside_key cfg key_func funcName args kwargs
    let g := RedisCache.get st cache_key JVal.null gFault elapsed
    let st1 : RedisState := { st with stats := g.2 }
    if g.1.isNull = false then ⟨ofJson g.1, st1, 0⟩
    else
      let result := producer args kwargs
      if result.isNull = false then
        let s := RedisCache.set st1 cache_key result (some cfg.get_ttl_seconds) sFault
        ⟨result, s.2, 1⟩
      else ⟨result, st1, 1⟩

/-- The key `_invalidate_cache` recomputes (cache.py lines 538-547); the
source duplicates the wrapper's key computation, including the
first-positional-argument drop. -/
def invalidate_key (cfg : CacheConfig)
    (key_func : Option (List PyVal → KwArgs → String)) (funcName : String)
    (args : List PyVal) (kwargs : KwArgs) : String :=
  match key_func with
  | some f => f args kwargs
  | Option.none =>
    let key_args := if args.isEmpty then args else args.tail
    cache_key_generator
      (if cfg.prefixStr = "" then funcName else cfg.prefixStr)
      cfg.version key_args kwargs

/-- Model of `_invalidate_cache` (cache.py lines 521-549) with a resolved
engine: recompute the key and issue a delete. -/
def _invalidate_cache (cfg : CacheConfig)
    (key_func : Option (List PyVal → KwArgs → String)) (funcName : String)
    (st : RedisState) (args : List PyVal) (kwargs : KwArgs) (fault : Bool) :
    Bool × RedisState :=
  RedisCache.delete st (invalidate_key cfg key_func funcName args kwargs) fault

/-! ## TTL resolution (`_get_cache_ttl`, cache.py lines 552-565) -/

/-- Model of Python `int(s)` on strings: optional surrounding whitespace, an
optional sign, then at least one decimal digit (digit-group underscores are
not modelled); `Option.none` models `ValueError`. -/
def digitsToNat : List Char → Option Nat
  | [] => Option.none
  | cs =>
    if cs.all Char.isDigit then
      some (cs.foldl (fun a c => a * 10 + (c.toNat - 48)) 0)
    else Option.none

/-- Leading and trailing whitespace stripped, as `int()` does. -/
def stripWs (cs : List Char) : List Char :=
  ((cs.dropWhile Char.isWhitespace).reverse.dropWhile Char.isWhitespace).reverse

def pyInt (s : String) : Option Int :=
  match stripWs s.data with
  | '-' :: cs => (digitsToNat cs).map (fun n => -(Int.ofNat n))
  | '+' :: cs => (digitsToNat cs).map Int.ofNat
  | cs => (digitsToNat cs).map Int.ofNat

/-- Model of `_get_cache_ttl` (cache.py lines 552-565): `env` is the value of
the category's `CACHE_TTL_*` environment override (`Option.none` when the
variable is absent; the empty string is falsy in `if env_value:`). -/
def _get_cache_ttl (env : Option String) (default : Int) : Int :=
  match env with
  | Option.none => default
  | some s =>
    if s = "" then default
    else
      match pyInt s with
      | Option.none => default
      | some value => if value < 0 then default else value


/-! ## Sequences of engine gets (for the stats invariants) -/

/-- One `get` issued against the engine: the `is_connected()` outcome at that
call, the key, whether the remote fetch raised, and its duration. -/
structure GetOp where
  conn : Bool
  key : String
  fault : Bool
  elapsed : ℚ

/-- Stats after one `get` against a fixed keyspace. -/
def applyGet (store : String → Option (String × Option Int)) (s : CacheStats)
    (op : GetOp) : CacheStats :=
  (RedisCache.get { connected := op.conn, store := store, stats := s }
    op.key JVal.null op.fault op.elapsed).2

/-- Stats after a sequence of `get` operations. -/
def runGets (store : String → Option (String × Option Int)) (s : CacheStats) :
    List GetOp → CacheStats
  | [] => s
  | op :: ops => runGets store (applyGet store s op) ops

/-- Connected gets whose remote fetch raised. -/
def fetchFaults (ops : List GetOp) : Nat :=
  (ops.filter (fun op => op.conn && op.fault)).length

/-- Heads that cannot extend a greedily parsed number: end of input or a
non-digit character. -/
def DelimHead : List Char → Prop
  | [] => True
  | c :: _ => c.isDigit = false

/-! ## Lemmas: decimal digits -/

theorem natDigitsAux_irrel (n : Nat) : ∀ F G, n < F → n < G →
    natDigitsAux F n = natDigitsAux G n := by
  induction n using Nat.strong_induction_on with
  | _ n ih =>
    intro F G hF hG
    cases F with
    | zero => omega
    | succ F =>
      cases G with
      | zero => omega
      | succ G =>
        by_cases h : n < 10
        · simp [natDigitsAux, h]
        · have hdiv : n / 10 < n := Nat.div_lt_self (by omega) (by omega)
          simp only [natDigitsAux, h, if_false]
          rw [ih (n / 10) hdiv F G (by omega) (by omega)]

theorem natDigits_lt_10 (n : Nat) (h : n < 10) :
    natDigits n = [Char.ofNat (48 + n)] := by
  simp [natDigits, natDigitsAux, h]

theorem natDigits_ge_10 (n : Nat) (h : 10 ≤ n) :
    natDigits n = natDigits (n / 10) ++ [Char.ofNat (48 + n % 10)] := by
  have hdiv : n / 10 < n := Nat.div_lt_self (by omega) (by omega)
  show natDigitsAux (n + 1) n = _
  simp only [natDigitsAux, Nat.not_lt.mpr h, if_false]
  rw [natDigitsAux_irrel (n / 10) n (n / 10 + 1) (by omega) (by omega)]
  rfl

theorem digitChar_toNat (n : Nat) (h : n < 10) :
    (Char.ofNat (48 + n)).toNat = 48 + n := by
  interval_cases n <;> decide

theorem digitChar_isDigit (n : Nat) (h : n < 10) :
    (Char.ofNat (48 + n)).isDigit = true := by
  interval_cases n <;> decide

theorem natDigits_head (n : Nat) :
    ∃ c cs, natDigits n = c :: cs ∧ c.isDigit = true := by
  induction n using Nat.strong_induction_on with
  | _ n ih =>
    by_cases h : n < 10
    · exact ⟨Char.ofNat (48 + n), [], natDigits_lt_10 n h, digitChar_isDigit n h⟩
    · have hdiv : n / 10 < n := Nat.div_lt_self (by omega) (by omega)
      obtain ⟨c, cs, hcs, hdig⟩ := ih (n / 10) hdiv
      refine ⟨c, cs ++ [Char.ofNat (48 + n % 10)], ?_, hdig⟩
      rw [natDigits_ge_10 n (by omega), hcs]
      rfl

theorem readDigits_natDigits_aux (n : Nat) : ∀ acc rest,
    readDigits acc (natDigits n ++ rest) =
      readDigits (acc * 10 ^ (natDigits n).length + n) rest := by
  induction n using Nat.strong_induction_on with
  | _ n ih =>
    intro acc rest
    by_cases h : n < 10
    · rw [natDigits_lt_10 n h]
      simp only [List.cons_append, List.nil_append, readDigits,
        digitChar_isDigit n h, if_true, digitChar_toNat n h, List.length_cons,
        List.length_nil]
      norm_num
    · have hdiv : n / 10 < n := Nat.div_lt_self (by omega) (by omega)
      rw [natDigits_ge_10 n (by omega)]
      rw [List.append_assoc, List.cons_append, List.nil_append]
      rw [ih (n / 10) hdiv acc _]
      have hm : n % 10 < 10 := Nat.mod_lt _ (by omega)
      simp only [readDigits, digitChar_isDigit (n % 10) hm, if_true,
        digitChar_toNat (n % 10) hm, List.length_append, List.length_cons,
        List.length_nil]
      have harith :
          (acc * 10 ^ (natDigits (n / 10)).length + n / 10) * 10 + (48 + n % 10 - 48)
            = acc * 10 ^ ((natDigits (n / 10)).length + (0 + 1)) + n := by
        have := Nat.div_add_mod n 10
        ring_nf
        omega
      rw [harith]

theorem readDigits_stop (acc : Nat) (rest : List Char) (h : DelimHead rest) :
    readDigits acc rest = (acc, rest) := by
  cases rest with
  | nil => rfl
  | cons c cs =>
    have hc : c.isDigit = false := h
    simp [readDigits, hc]

theorem readDigits_natDigits (n : Nat) (rest : List Char) (h : DelimHead rest) :
    readDigits 0 (natDigits n ++ rest) = (n, rest) := by
  rw [readDigits_natDigits_aux n 0 rest, Nat.zero_mul, Nat.zero_add,
    readDigits_stop n rest h]

/-! ## Lemmas: strings and spaces -/

theorem skipSpaces_cons (c : Char) (l : List Char) (h : c ≠ ' ') :
    skipSpaces (c :: l) = c :: l := by
  simp [skipSpaces, h]

theorem skipSpaces_space (l : List Char) : skipSpaces (' ' :: l) = skipSpaces l := by
  simp [skipSpaces]

theorem parseStrBody_other (c : Char) (l : List Char) (h1 : c ≠ '"')
    (h2 : c ≠ '\\') : parseStrBody (c :: l) =
      (parseStrBody l).map (fun p => (c :: p.1, p.2)) := by
  rw [parseStrBody.eq_def]
  split
  · simp_all
  · simp_all
  · simp_all
  · rename_i heq
    injection heq with h3 h4
    subst h3
    subst h4
    rfl

theorem parseStrBody_escape (s : List Char) : ∀ rest,
    parseStrBody (escapeChars s ++ '"' :: rest) = some (s, rest) := by
  induction s with
  | nil => intro rest; rfl
  | cons c cs ih =>
    intro rest
    by_cases h : c = '"' ∨ c = '\\'
    · simp only [escapeChars, h, if_true, List.cons_append]
      rw [parseStrBody.eq_def]
      simp only [h, if_true]
      rw [ih rest]
      rfl
    · push_neg at h
      simp only [escapeChars, h, if_false, or_self, List.cons_append]
      rw [parseStrBody_other c _ h.1 h.2, ih rest]
      rfl

/-! ## Lemmas: parser unfolding on each input shape -/

theorem jsize_pos (v : JVal) : 1 ≤ jsize v := by
  cases v <;> simp [jsize]

theorem string_mk_data : ∀ s : String, String.mk s.data = s
  | ⟨_⟩ => rfl

theorem parseValue_null (F : Nat) (r : List Char) :
    parseValue (F + 1) ('n' :: 'u' :: 'l' :: 'l' :: r) = some (JVal.null, r) := rfl

theorem parseValue_true (F : Nat) (r : List Char) :
    parseValue (F + 1) ('t' :: 'r' :: 'u' :: 'e' :: r) = some (JVal.bool true, r) := rfl

theorem parseValue_false (F : Nat) (r : List Char) :
    parseValue (F + 1) ('f' :: 'a' :: 'l' :: 's' :: 'e' :: r) =
      some (JVal.bool false, r) := rfl

theorem parseValue_str (F : Nat) (r : List Char) :
    parseValue (F + 1) ('"' :: r) =
      (parseStrBody r).map (fun p => (JVal.str (String.mk p.1), p.2)) := rfl

theorem parseValue_digit (F : Nat) (c : Char) (cs : List Char)
    (h : c.isDigit = true) : parseValue (F + 1) (c :: cs) =
      some (JVal.num (Int.ofNat (readDigits 0 (c :: cs)).1),
        (readDigits 0 (c :: cs)).2) := by
  rw [parseValue.eq_def]
  simp only [h, if_true]

theorem parseValue_neg (F : Nat) (c2 : Char) (r2 : List Char)
    (h : c2.isDigit = true) : parseValue (F + 1) ('-' :: c2 :: r2) =
      some (JVal.num (-(Int.ofNat (readDigits 0 (c2 :: r2)).1)),
        (readDigits 0 (c2 :: r2)).2) := by
  rw [parseValue.eq_def]
  simp only [h, if_true]
  rfl

theorem parseValue_arr (F : Nat) (r : List Char) :
    parseValue (F + 1) ('[' :: r) =
      (match skipSpaces r with
       | ']' :: r2 => some (JVal.arr .nil, r2)
       | r2 => (parseElems F r2).map (fun p => (JVal.arr p.1, p.2))) := rfl

theorem parseValue_obj (F : Nat) (r : List Char) :
    parseValue (F + 1) ('{' :: r) =
      (match skipSpaces r with
       | '}' :: r2 => some (JVal.obj .nil, r2)
       | r2 => (parseMembers F r2).map (fun p => (JVal.obj p.1, p.2))) := rfl

theorem arr_branch_ne (c : Char) (x : List Char) (F : Nat) (h : c ≠ ']') :
    (match c :: x with
     | ']' :: r2 => some (JVal.arr .nil, r2)
     | r2 => (parseElems F r2).map (fun p => (JVal.arr p.1, p.2)))
    = (parseElems F (c :: x)).map (fun p => (JVal.arr p.1, p.2)) := by
  split
  · rename_i heq
    injection heq with h1 _
    exact absurd h1 h
  · rfl

theorem obj_branch_ne (c : Char) (x : List Char) (F : Nat) (h : c ≠ '}') :
    (match c :: x with
     | '}' :: r2 => some (JVal.obj .nil, r2)
     | r2 => (parseMembers F r2).map (fun p => (JVal.obj p.1, p.2)))
    = (parseMembers F (c :: x)).map (fun p => (JVal.obj p.1, p.2)) := by
  split
  · rename_i heq
    injection heq with h1 _
    exact absurd h1 h
  · rfl

theorem parseElems_close (F : Nat) (input : List Char) (v : JVal) (r2 : List Char)
    (h : parseValue F input = some (v, ']' :: r2)) :
    parseElems (F + 1) input = some (JArr.cons v JArr.nil, r2) := by
  have heq : parseElems (F + 1) input =
      (match parseValue F input with
       | Option.none => Option.none
       | some (v, r) =>
         match r with
         | ']' :: r2 => some (JArr.cons v JArr.nil, r2)
         | ',' :: r2 => (parseElems F (skipSpaces r2)).map
             (fun p => (JArr.cons v p.1, p.2))
         | _ => Option.none) := rfl
  rw [heq, h]
  rfl

theorem parseElems_comma (F : Nat) (input : List Char) (v : JVal) (r2 : List Char)
    (h : parseValue F input = some (v, ',' :: r2)) :
    parseElems (F + 1) input =
      (parseElems F (skipSpaces r2)).map (fun p => (JArr.cons v p.1, p.2)) := by
  have heq : parseElems (F + 1) input =
      (match parseValue F input with
       | Option.none => Option.none
       | some (v, r) =>
         match r with
         | ']' :: r2 => some (JArr.cons v JArr.nil, r2)
         | ',' :: r2 => (parseElems F (skipSpaces r2)).map
             (fun p => (JArr.cons v p.1, p.2))
         | _ => Option.none) := rfl
  rw [heq, h]
  rfl

theorem parseMembers_close (F : Nat) (r k r2 : List Char) (v : JVal)
    (r4 : List Char) (hk : parseStrBody r = some (k, ':' :: r2))
    (hv : parseValue F (skipSpaces r2) = some (v, '}' :: r4)) :
    parseMembers (F + 1) ('"' :: r) =
      some (JObj.cons (String.mk k) v JObj.nil, r4) := by
  have heq : parseMembers (F + 1) ('"' :: r) =
      (match parseStrBody r with
       | Option.none => Option.none
       | some (k, r1) =>
         match r1 with
         | ':' :: r2 =>
           (match parseValue F (skipSpaces r2) with
            | Option.none => Option.none
            | some (v, r3) =>
              match r3 with
              | '}' :: r4 => some (JObj.cons (String.mk k) v JObj.nil, r4)
              | ',' :: r4 =>
                (parseMembers F (skipSpaces r4)).map
                  (fun p => (JObj.cons (String.mk k) v p.1, p.2))
              | _ => Option.none)
         | _ => Option.none) := rfl
  rw [heq, hk]
  show (match parseValue F (skipSpaces r2) with
        | Option.none => Option.none
        | some (v, r3) =>
          match r3 with
          | '}' :: r4 => some (JObj.cons (String.mk k) v JObj.nil, r4)
          | ',' :: r4 =>
            (parseMembers F (skipSpaces r4)).map
              (fun (p : JObj × List Char) => (JObj.cons (String.mk k) v p.1, p.2))
          | _ => Option.none) = _
  rw [hv]
  rfl

theorem parseMembers_comma (F : Nat) (r k r2 : List Char) (v : JVal)
    (r4 : List Char) (hk : parseStrBody r = some (k, ':' :: r2))
    (hv : parseValue F (skipSpaces r2) = some (v, ',' :: r4)) :
    parseMembers (F + 1) ('"' :: r) =
      (parseMembers F (skipSpaces r4)).map
        (fun p => (JObj.cons (String.mk k) v p.1, p.2)) := by
  have heq : parseMembers (F + 1) ('"' :: r) =
      (match parseStrBody r with
       | Option.none => Option.none
       | some (k, r1) =>
         match r1 with
         | ':' :: r2 =>
           (match parseValue F (skipSpaces r2) with
            | Option.none => Option.none
            | some (v, r3) =>
              match r3 with
              | '}' :: r4 => some (JObj.cons (String.mk k) v JObj.nil, r4)
              | ',' :: r4 =>
                (parseMembers F (skipSpaces r4)).map
                  (fun p => (JObj.cons (String.mk k) v p.1, p.2))
              | _ => Option.none)
         | _ => Option.none) := rfl
  rw [heq, hk]
  show (match parseValue F (skipSpaces r2) with
        | Option.none => Option.none
        | some (v, r3) =>
          match r3 with
          | '}' :: r4 => some (JObj.cons (String.mk k) v JObj.nil, r4)
          | ',' :: r4 =>
            (parseMembers F (skipSpaces r4)).map
              (fun (p : JObj × List Char) => (JObj.cons (String.mk k) v p.1, p.2))
          | _ => Option.none) = _
  rw [hv]
  rfl

/-! ## Lemmas: first character of rendered output -/

theorem isDigit_ne_space (c : Char) (h : c.isDigit = true) : c ≠ ' ' := by
  intro e
  rw [e] at h
  exact absurd h (by decide)

theorem isDigit_ne_rbracket (c : Char) (h : c.isDigit = true) : c ≠ ']' := by
  intro e
  rw [e] at h
  exact absurd h (by decide)

theorem render_head (v : JVal) :
    ∃ c cs, render v = c :: cs ∧ c ≠ ' ' ∧ c ≠ ']' := by
  cases v with
  | null => exact ⟨'n', _, rfl, by decide, by decide⟩
  | bool b =>
    cases b with
    | false => exact ⟨'f', _, rfl, by decide, by decide⟩
    | true => exact ⟨'t', _, rfl, by decide, by decide⟩
  | num n =>
    by_cases hneg : n < 0
    · refine ⟨'-', natDigits n.natAbs, ?_, by decide, by decide⟩
      simp [render, intChars, hneg]
    · obtain ⟨c, cs, hcs, hdig⟩ := natDigits_head n.toNat
      refine ⟨c, cs, ?_, isDigit_ne_space c hdig, isDigit_ne_rbracket c hdig⟩
      simp [render, intChars, hneg, hcs]
  | str s => exact ⟨'"', _, rfl, by decide, by decide⟩
  | arr l => cases l with
    | nil => exact ⟨'[', _, rfl, by decide, by decide⟩
    | cons v tl => exact ⟨'[', _, rfl, by decide, by decide⟩
  | obj l => cases l with
    | nil => exact ⟨'{', _, rfl, by decide, by decide⟩
    | cons k v tl => exact ⟨'{', _, rfl, by decide, by decide⟩

theorem renderElems_head (v : JVal) (tl : JArr) :
    ∃ c cs, renderElems (.cons v tl) = c :: cs ∧ c ≠ ' ' ∧ c ≠ ']' := by
  obtain ⟨c, cs, hcs, h1, h2⟩ := render_head v
  cases tl with
  | nil => exact ⟨c, cs, by simp [renderElems, hcs], h1, h2⟩
  | cons w tl2 =>
    exact ⟨c, cs ++ (',' :: ' ' :: renderElems (.cons w tl2)),
      by simp [renderElems, hcs], h1, h2⟩

theorem renderMembers_head (k : String) (v : JVal) (tl : JObj) :
    ∃ cs, renderMembers (.cons k v tl) = '"' :: cs := by
  cases tl with
  | nil =>
    exact ⟨(escapeChars k.data ++ ['"']) ++ (':' :: ' ' :: render v),
      by simp [renderMembers, renderStr]⟩
  | cons k2 w tl2 =>
    exact ⟨(escapeChars k.data ++ ['"']) ++ (':' :: ' ' :: render v) ++
        (',' :: ' ' :: renderMembers (.cons k2 w tl2)),
      by simp [renderMembers, renderStr]⟩

theorem delim_nil : DelimHead [] := trivial

theorem delim_cons (c : Char) (l : List Char) (h : c.isDigit = false) :
    DelimHead (c :: l) := h

/-! ## The JSON codec round-trip, by mutual structural induction -/

mutual

theorem parse_render : ∀ (v : JVal) (F : Nat), jsize v ≤ F → ∀ rest,
    DelimHead rest → parseValue F (render v ++ rest) = some (v, rest)
  | v, 0, hF, _, _ => by
    have := jsize_pos v
    omega
  | .null, F + 1, _, rest, _ => parseValue_null F rest
  | .bool true, F + 1, _, rest, _ => parseValue_true F rest
  | .bool false, F + 1, _, rest, _ => parseValue_false F rest
  | .num n, F + 1, _, rest, hrest => by
    by_cases hneg : n < 0
    · obtain ⟨c, cs, hcs, hdig⟩ := natDigits_head n.natAbs
      have hr : render (.num n) ++ rest = '-' :: c :: (cs ++ rest) := by
        simp [render, intChars, hneg, hcs]
      rw [hr, parseValue_neg F c (cs ++ rest) hdig]
      have hread : readDigits 0 (c :: (cs ++ rest)) = (n.natAbs, rest) := by
        rw [← List.cons_append, ← hcs]
        exact readDigits_natDigits n.natAbs rest hrest
      rw [hread]
      have h0 : -(Int.ofNat n.natAbs) = n := by
        have hc : Int.ofNat n.natAbs = ((n.natAbs : ℕ) : ℤ) := rfl
        rw [hc]
        omega
      show some (JVal.num (-(Int.ofNat n.natAbs)), rest) = some (JVal.num n, rest)
      rw [h0]
    · obtain ⟨c, cs, hcs, hdig⟩ := natDigits_head n.toNat
      have hr : render (.num n) ++ rest = c :: (cs ++ rest) := by
        simp [render, intChars, hneg, hcs]
      rw [hr, parseValue_digit F c (cs ++ rest) hdig]
      have hread : readDigits 0 (c :: (cs ++ rest)) = (n.toNat, rest) := by
        rw [← List.cons_append, ← hcs]
        exact readDigits_natDigits n.toNat rest hrest
      rw [hread]
      have h0 : Int.ofNat n.toNat = n := by
        have hc : Int.ofNat n.toNat = ((n.toNat : ℕ) : ℤ) := rfl
        rw [hc]
        omega
      show some (JVal.num (Int.ofNat n.toNat), rest) = some (JVal.num n, rest)
      rw [h0]
  | .str s, F + 1, _, rest, _ => by
    have hr : render (.str s) ++ rest
        = '"' :: (escapeChars s.data ++ '"' :: rest) := by
      simp [render, renderStr]
    rw [hr, parseValue_str F _, parseStrBody_escape s.data rest]
    simp [string_mk_data]
  | .arr .nil, F + 1, _, rest, _ => by
    have hr : render (.arr .nil) ++ rest = '[' :: (']' :: rest) := rfl
    rw [hr, parseValue_arr F _, skipSpaces_cons ']' rest (by decide)]
    rfl
  | .arr (.cons v tl), F + 1, hF, rest, _ => by
    have hr : render (.arr (.cons v tl)) ++ rest
        = '[' :: (renderElems (.cons v tl) ++ ']' :: rest) := by
      simp [render]
    rw [hr, parseValue_arr F _]
    obtain ⟨c, cs, hcs, hsp, hrb⟩ := renderElems_head v tl
    rw [hcs, List.cons_append, skipSpaces_cons c _ hsp, arr_branch_ne c _ F hrb,
      ← List.cons_append, ← hcs]
    rw [parse_render_elems (.cons v tl) (fun h => JArr.noConfusion h) F
      (by simp [jsize, jsizeArr] at hF ⊢; omega) rest]
    rfl
  | .obj .nil, F + 1, _, rest, _ => by
    have hr : render (.obj .nil) ++ rest = '{' :: ('}' :: rest) := rfl
    rw [hr, parseValue_obj F _, skipSpaces_cons '}' rest (by decide)]
    rfl
  | .obj (.cons k v tl), F + 1, hF, rest, _ => by
    have hr : render (.obj (.cons k v tl)) ++ rest
        = '{' :: (renderMembers (.cons k v tl) ++ '}' :: rest) := by
      simp [render]
    rw [hr, parseValue_obj F _]
    obtain ⟨cs, hcs⟩ := renderMembers_head k v tl
    rw [hcs, List.cons_append, skipSpaces_cons '"' _ (by decide),
      obj_branch_ne '"' _ F (by decide), ← List.cons_append, ← hcs]
    rw [parse_render_members (.cons k v tl) (fun h => JObj.noConfusion h) F
      (by simp [jsize, jsizeObj] at hF ⊢; omega) rest]
    rfl

theorem parse_render_elems : ∀ (l : JArr), l ≠ JArr.nil → ∀ F,
    jsizeArr l + 1 ≤ F → ∀ rest,
    parseElems F (renderElems l ++ ']' :: rest) = some (l, rest)
  | _, _, 0, hF, _ => by omega
  | .nil, h, _ + 1, _, _ => absurd rfl h
  | .cons v .nil, _, F + 1, hF, rest => by
    have h1 : renderElems (.cons v .nil) ++ ']' :: rest
        = render v ++ ']' :: rest := by
      simp [renderElems]
    refine parseElems_close F _ v rest ?_
    rw [h1]
    exact parse_render v F (by simp [jsizeArr] at hF; omega) (']' :: rest)
      (delim_cons _ _ (by decide))
  | .cons v (.cons w tl), _, F + 1, hF, rest => by
    have h1 : renderElems (.cons v (.cons w tl)) ++ ']' :: rest
        = render v ++ (',' :: (' ' :: (renderElems (.cons w tl) ++ ']' :: rest))) := by
      simp [renderElems]
    rw [parseElems_comma F _ v (' ' :: (renderElems (.cons w tl) ++ ']' :: rest))
      (by
        rw [h1]
        exact parse_render v F
          (by simp [jsizeArr] at hF; have := jsize_pos w; omega)
          (',' :: (' ' :: (renderElems (.cons w tl) ++ ']' :: rest)))
          (delim_cons _ _ (by decide)))]
    rw [skipSpaces_space]
    obtain ⟨c, cs, hcs, hsp, _⟩ := renderElems_head w tl
    rw [hcs, List.cons_append, skipSpaces_cons c _ hsp, ← List.cons_append, ← hcs]
    rw [parse_render_elems (.cons w tl) (fun h => JArr.noConfusion h) F
      (by simp [jsizeArr] at hF ⊢; have := jsize_pos v; omega) rest]
    rfl

theorem parse_render_members : ∀ (l : JObj), l ≠ JObj.nil → ∀ F,
    jsizeObj l + 1 ≤ F → ∀ rest,
    parseMembers F (renderMembers l ++ '}' :: rest) = some (l, rest)
  | _, _, 0, hF, _ => by omega
  | .nil, h, _ + 1, _, _ => absurd rfl h
  | .cons k v .nil, _, F + 1, hF, rest => by
    have h1 : renderMembers (.cons k v .nil) ++ '}' :: rest
        = '"' :: (escapeChars k.data ++ '"' :: (':' :: (' ' :: (render v ++ '}' :: rest)))) := by
      simp [renderMembers, renderStr]
    rw [h1]
    rw [parseMembers_close F _ k.data (' ' :: (render v ++ '}' :: rest)) v rest
      (parseStrBody_escape k.data _)
      (by
        rw [skipSpaces_space]
        obtain ⟨c, cs, hcs, hsp, _⟩ := render_head v
        rw [hcs, List.cons_append, skipSpaces_cons c _ hsp, ← List.cons_append, ← hcs]
        exact parse_render v F (by simp [jsizeObj] at hF; omega) ('}' :: rest)
          (delim_cons _ _ (by decide)))]
  | .cons k v (.cons k2 w tl), _, F + 1, hF, rest => by
    have h1 : renderMembers (.cons k v (.cons k2 w tl)) ++ '}' :: rest
        = '"' :: (escapeChars k.data ++ '"' :: (':' :: (' ' :: (render v ++
            ',' :: (' ' :: (renderMembers (.cons k2 w tl) ++ '}' :: rest)))))) := by
      simp [renderMembers, renderStr]
    rw [h1]
    rw [parseMembers_comma F _ k.data (' ' :: (render v ++
        ',' :: (' ' :: (renderMembers (.cons k2 w tl) ++ '}' :: rest)))) v
      (' ' :: (renderMembers (.cons k2 w tl) ++ '}' :: rest))
      (parseStrBody_escape k.data _)
      (by
        rw [skipSpaces_space]
        obtain ⟨c, cs, hcs, hsp, _⟩ := render_head v
        rw [hcs, List.cons_append, skipSpaces_cons c _ hsp, ← List.cons_append, ← hcs]
        exact parse_render v F
          (by simp [jsizeObj] at hF; have := jsize_pos w; omega)
          (',' :: (' ' :: (renderMembers (.cons k2 w tl) ++ '}' :: rest)))
          (delim_cons _ _ (by decide)))]
    rw [skipSpaces_space]
    obtain ⟨cs, hcs⟩ := renderMembers_head k2 w tl
    rw [hcs, List.cons_append, skipSpaces_cons '"' _ (by decide), ← List.cons_append, ← hcs]
    rw [parse_render_members (.cons k2 w tl) (fun h => JObj.noConfusion h) F
      (by simp [jsizeObj] at hF ⊢; have := jsize_pos v; omega) rest]
    rw [string_mk_data]
    rfl

end

mutual

theorem render_len : ∀ v : JVal, jsize v ≤ (render v).length
  | .null => by simp [render, jsize]
  | .bool true => by simp [render, jsize]
  | .bool false => by simp [render, jsize]
  | .num n => by
    by_cases hneg : n < 0
    · obtain ⟨c, cs, hcs, _⟩ := natDigits_head n.natAbs
      simp [render, jsize, intChars, hneg, hcs]
    · obtain ⟨c, cs, hcs, _⟩ := natDigits_head n.toNat
      simp [render, jsize, intChars, hneg, hcs]
  | .str s => by simp [render, jsize, renderStr]
  | .arr .nil => by simp [render, jsize, jsizeArr]
  | .arr (.cons v tl) => by
    have h := renderElems_len (.cons v tl)
    simp only [render, jsize, List.length_cons, List.length_append,
      List.length_singleton]
    omega
  | .obj .nil => by simp [render, jsize, jsizeObj]
  | .obj (.cons k v tl) => by
    have h := renderMembers_len (.cons k v tl)
    simp only [render, jsize, List.length_cons, List.length_append,
      List.length_singleton]
    omega

theorem renderElems_len : ∀ l : JArr, jsizeArr l ≤ (renderElems l).length
  | .nil => by simp [renderElems, jsizeArr]
  | .cons v .nil => by
    have h := render_len v
    simp only [renderElems, jsizeArr, jsizeArr.eq_1]
    omega
  | .cons v (.cons w tl) => by
    have h1 := render_len v
    have h2 := renderElems_len (.cons w tl)
    simp only [jsizeArr] at h2
    simp only [renderElems, jsizeArr, List.length_append, List.length_cons]
    omega

theorem renderMembers_len : ∀ l : JObj, jsizeObj l ≤ (renderMembers l).length
  | .nil => by simp [renderMembers, jsizeObj]
  | .cons k v .nil => by
    have h := render_len v
    simp only [renderMembers, jsizeObj, jsizeObj.eq_1, List.length_append,
      List.length_cons]
    omega
  | .cons k v (.cons k2 w tl) => by
    have h1 := render_len v
    have h2 := renderMembers_len (.cons k2 w tl)
    simp only [jsizeObj] at h2
    simp only [renderMembers, jsizeObj, List.length_append, List.length_cons]
    omega

end

mutual

theorem toJson_ofJson : ∀ j : JVal, toJson (ofJson j) = j
  | .null => rfl
  | .bool _ => rfl
  | .num _ => rfl
  | .str _ => rfl
  | .arr l => by
    show JVal.arr (toJsonList (ofJsonArr l)) = JVal.arr l
    rw [toJson_ofJson_arr l]
  | .obj l => by
    show JVal.obj (toJsonDict (ofJsonObj l)) = JVal.obj l
    rw [toJson_ofJson_obj l]

theorem toJson_ofJson_arr : ∀ l : JArr, toJsonList (ofJsonArr l) = l
  | .nil => rfl
  | .cons v tl => by
    show JArr.cons (toJson (ofJson v)) (toJsonList (ofJsonArr tl)) = JArr.cons v tl
    rw [toJson_ofJson v, toJson_ofJson_arr tl]

theorem toJson_ofJson_obj : ∀ l : JObj, toJsonDict (ofJsonObj l) = l
  | .nil => rfl
  | .cons k v tl => by
    show JObj.cons k (toJson (ofJson v)) (toJsonDict (ofJsonObj tl)) = JObj.cons k v tl
    rw [toJson_ofJson v, toJson_ofJson_obj tl]

end

theorem jsonParse_dumps (v : JVal) : jsonParse (jsonDumps v) = some v := by
  have hdata : (jsonDumps v).data = render v := rfl
  unfold jsonParse
  rw [hdata]
  have h := parse_render v ((render v).length + 1)
    (by have := render_len v; omega) [] delim_nil
  rw [List.append_nil] at h
  rw [h]

theorem jsonDumps_ne_empty (v : JVal) : jsonDumps v ≠ "" := by
  obtain ⟨c, cs, hcs, _, _⟩ := render_head v
  simp only [jsonDumps, hcs]
  intro h
  have : (String.mk (c :: cs)).data = ("" : String).data := by rw [h]
  simp at this

theorem ofJson_isNull (j : JVal) (h : j ≠ JVal.null) : (ofJson j).isNull = false := by
  cases j with
  | null => exact absurd rfl h
  | bool b => rfl
  | num n => rfl
  | str s => rfl
  | arr l => rfl
  | obj l => rfl

/-- Claim C5: for every JSON-serializable value `v`, deserializing the
serialization of `v` yields a value equal to `v`; `None` serializes to the
explicit empty marker (the empty byte string) and deserializing that marker
yields `None`; and non-JSON-native types such as date/time values are
coerced to their string form at encode time (so a date round-trips to the
string form json.dumps' `default=str` produced). -/
theorem C5_serialize_roundtrip :
    (∀ j : JVal, _deserialize (_serialize (ofJson j)) = some j) ∧
    _serialize PyVal.null = "" ∧
    _deserialize "" = some JVal.null ∧
    (∀ s : String, _serialize (PyVal.date s) = jsonDumps (JVal.str s) ∧
      _deserialize (_serialize (PyVal.date s)) = some (JVal.str s)) := by
  refine ⟨?_, rfl, rfl, ?_⟩
  · intro j
    by_cases h : j = JVal.null
    · subst h
      rfl
    · have h1 : _serialize (ofJson j) = jsonDumps j := by
        simp only [_serialize, ofJson_isNull j h, Bool.false_eq_true, if_false,
          toJson_ofJson j]
      rw [h1]
      simp only [_deserialize, if_neg (jsonDumps_ne_empty j)]
      exact jsonParse_dumps j
  · intro s
    refine ⟨rfl, ?_⟩
    show _deserialize (jsonDumps (JVal.str s)) = _
    simp only [_deserialize, if_neg (jsonDumps_ne_empty (JVal.str s))]
    exact jsonParse_dumps (JVal.str s)

/-! ## Lemmas: the key-sorting of keyword arguments -/

theorem strLeb_total : ∀ as bs : List Char, strLeb as bs = true ∨ strLeb bs as = true := by
  intro as
  induction as with
  | nil => intro bs; left; rfl
  | cons a as ih =>
    intro bs
    cases bs with
    | nil => right; rfl
    | cons b bs =>
      by_cases h1 : a.toNat < b.toNat
      · left; simp [strLeb, h1]
      · by_cases h2 : b.toNat < a.toNat
        · right; simp [strLeb, h2]
        · rcases ih bs with h | h
          · left; simp [strLeb, h1, h2, h]
          · right; simp [strLeb, h1, h2, h]

theorem char_eq_of_toNat_eq (a b : Char) (h : a.toNat = b.toNat) : a = b := by
  have ha := Char.ofNat_toNat a
  have hb := Char.ofNat_toNat b
  rw [← ha, ← hb, h]

theorem strLeb_antisymm : ∀ as bs : List Char,
    strLeb as bs = true → strLeb bs as = true → as = bs := by
  intro as
  induction as with
  | nil =>
    intro bs h1 h2
    cases bs with
    | nil => rfl
    | cons b bs => simp [strLeb] at h2
  | cons a as ih =>
    intro bs h1 h2
    cases bs with
    | nil => simp [strLeb] at h1
    | cons b bs =>
      by_cases hab : a.toNat < b.toNat
      · simp [strLeb, hab] at h2
        omega
      · by_cases hba : b.toNat < a.toNat
        · simp [strLeb, hba, hab] at h1
        · have he : a = b := char_eq_of_toNat_eq a b (by omega)
          subst he
          simp only [strLeb, hab, if_false] at h1 h2
          rw [ih bs h1 h2]

theorem strLeb_trans : ∀ as bs cs : List Char,
    strLeb as bs = true → strLeb bs cs = true → strLeb as cs = true := by
  intro as
  induction as with
  | nil => intro bs cs _ _; rfl
  | cons a as ih =>
    intro bs cs h1 h2
    cases bs with
    | nil => simp [strLeb] at h1
    | cons b bs =>
      cases cs with
      | nil => simp [strLeb] at h2
      | cons c cs =>
        by_cases hab : a.toNat < b.toNat <;> by_cases hbc : b.toNat < c.toNat
        · simp [strLeb, show a.toNat < c.toNat by omega]
        · by_cases hcb : c.toNat < b.toNat
          · simp [strLeb, hbc, hcb] at h2
          · simp [strLeb, show a.toNat < c.toNat by omega]
        · by_cases hba : b.toNat < a.toNat
          · simp [strLeb, hab, hba] at h1
          · simp [strLeb, show a.toNat < c.toNat by omega]
        · by_cases hba : b.toNat < a.toNat
          · simp [strLeb, hab, hba] at h1
          · by_cases hcb : c.toNat < b.toNat
            · simp [strLeb, hbc, hcb] at h2
            · have h1' : strLeb as bs = true := by
                simpa [strLeb, hab, hba] using h1
              have h2' : strLeb bs cs = true := by
                simpa [strLeb, hbc, hcb] using h2
              simp [strLeb, show ¬ a.toNat < c.toNat by omega,
                show ¬ c.toNat < a.toNat by omega, ih bs cs h1' h2']

theorem strLe_total (a b : String) : strLe a b = true ∨ strLe b a = true :=
  strLeb_total a.data b.data

theorem strLe_trans (a b c : String) (h1 : strLe a b = true)
    (h2 : strLe b c = true) : strLe a c = true :=
  strLeb_trans a.data b.data c.data h1 h2

theorem strLe_antisymm (a b : String) (h1 : strLe a b = true)
    (h2 : strLe b a = true) : a = b := by
  have h := strLeb_antisymm a.data b.data h1 h2
  cases a
  cases b
  exact congrArg String.mk (by simpa using h)

theorem insKey_perm (p : String × PyVal) : ∀ l, (insKey p l).Perm (p :: l)
  | [] => List.Perm.refl _
  | q :: qs => by
    simp only [insKey]
    by_cases h : strLe p.1 q.1 = true
    · rw [if_pos h]
    · rw [if_neg h]
      exact ((insKey_perm p qs).cons q).trans (List.Perm.swap p q qs)

theorem insKey_sorted (p : String × PyVal) : ∀ l,
    List.Pairwise (fun a b : String × PyVal => strLe a.1 b.1 = true) l →
    List.Pairwise (fun a b : String × PyVal => strLe a.1 b.1 = true) (insKey p l)
  | [], _ => by simp [insKey]
  | q :: qs, hp => by
    rcases List.pairwise_cons.mp hp with ⟨hq, hqs⟩
    simp only [insKey]
    by_cases h : strLe p.1 q.1 = true
    · rw [if_pos h]
      refine List.pairwise_cons.mpr ⟨?_, hp⟩
      intro x hx
      rcases List.mem_cons.mp hx with rfl | hxq
      · exact h
      · exact strLe_trans p.1 q.1 x.1 h (hq x hxq)
    · rw [if_neg h]
      have hqp : strLe q.1 p.1 = true := by
        rcases strLe_total p.1 q.1 with h1 | h1
        · exact absurd h1 h
        · exact h1
      refine List.pairwise_cons.mpr ⟨?_, insKey_sorted p qs hqs⟩
      intro x hx
      have hmem : x = p ∨ x ∈ qs := by
        have := (insKey_perm p qs).mem_iff.mp hx
        simpa using this
      rcases hmem with rfl | hxq
      · exact hqp
      · exact hq x hxq

theorem sortByKey_perm : ∀ l, (sortByKey l).Perm l
  | [] => List.Perm.refl _
  | p :: ps => (insKey_perm p (sortByKey ps)).trans ((sortByKey_perm ps).cons p)

theorem sortByKey_sorted : ∀ l,
    List.Pairwise (fun a b : String × PyVal => strLe a.1 b.1 = true) (sortByKey l)
  | [] => List.Pairwise.nil
  | p :: ps => insKey_sorted p (sortByKey ps) (sortByKey_sorted ps)

theorem keysSorted_perm_eq : ∀ (l1 l2 : List (String × PyVal)), l1.Perm l2 →
    List.Pairwise (fun a b : String × PyVal => strLe a.1 b.1 = true) l1 →
    List.Pairwise (fun a b : String × PyVal => strLe a.1 b.1 = true) l2 →
    (l1.map Prod.fst).Nodup → l1 = l2 := by
  intro l1
  induction l1 with
  | nil =>
    intro l2 hperm _ _ _
    exact List.Perm.nil_eq hperm
  | cons a t1 ih =>
    intro l2 hperm hs1 hs2 hnd
    cases l2 with
    | nil => exact absurd hperm.symm (by simp)
    | cons b t2 =>
      by_cases hab : a = b
      · subst hab
        rcases List.pairwise_cons.mp hs1 with ⟨_, hs1'⟩
        rcases List.pairwise_cons.mp hs2 with ⟨_, hs2'⟩
        have hnd' : (t1.map Prod.fst).Nodup := by
          simpa using hnd.of_cons
        rw [ih t2 hperm.cons_inv hs1' hs2' hnd']
      · have hamem : a ∈ t2 := by
          have : a ∈ b :: t2 := hperm.mem_iff.mp (List.mem_cons_self a t1)
          rcases List.mem_cons.mp this with h | h
          · exact absurd h hab
          · exact h
        have hbmem : b ∈ t1 := by
          have : b ∈ a :: t1 := hperm.symm.mem_iff.mp (List.mem_cons_self b t2)
          rcases List.mem_cons.mp this with h | h
          · exact absurd h.symm hab
          · exact h
        have h1 : strLe a.1 b.1 = true :=
          (List.pairwise_cons.mp hs1).1 b hbmem
        have h2 : strLe b.1 a.1 = true :=
          (List.pairwise_cons.mp hs2).1 a hamem
        have hkey : a.1 = b.1 := strLe_antisymm a.1 b.1 h1 h2
        have : a.1 ∈ t1.map Prod.fst := by
          rw [hkey]
          exact List.mem_map_of_mem Prod.fst hbmem
        rcases List.nodup_cons.mp hnd with ⟨hna, _⟩
        exact absurd this hna

theorem sortByKey_eq_of_perm (l1 l2 : List (String × PyVal)) (hperm : l1.Perm l2)
    (hnd : (l1.map Prod.fst).Nodup) : sortByKey l1 = sortByKey l2 := by
  refine keysSorted_perm_eq (sortByKey l1) (sortByKey l2)
    (((sortByKey_perm l1).trans hperm).trans (sortByKey_perm l2).symm)
    (sortByKey_sorted l1) (sortByKey_sorted l2) ?_
  have hp : ((sortByKey l1).map Prod.fst).Perm (l1.map Prod.fst) :=
    (sortByKey_perm l1).map Prod.fst
  exact hp.nodup_iff.mpr hnd

theorem keygen_suffix (pfx version : String) (args : List PyVal) (kw : KwArgs) :
    cache_key_generator pfx version args kw =
      String.intercalate ":"
        (([pfx, version] ++ (args.filter (fun a => !a.isNull)).map pyStr) ++
          (if (kw.filter (fun p => !p.2.isNull)).isEmpty then []
           else [md5hex8 (jsonDumps (JVal.obj
             (toJObj (sortByKey (kw.filter (fun p => !p.2.isNull))))))])) := by
  unfold cache_key_generator
  cases kw with
  | nil => simp
  | cons a l =>
    by_cases h2 : ((a :: l).filter (fun p => !p.2.isNull)).isEmpty = true
    · simp [h2]
    · simp only [Bool.not_eq_true] at h2
      simp [h2]

/-- Claim C3: the key generator is deterministic: two invocations with equal
prefix, version and positional arguments whose keyword maps agree after
filtering out `None` values (as finite maps, i.e. up to supply order with
pairwise-distinct keys) produce the identical key string, because the
keyword map is JSON-serialized with sorted keys and hashed to a short
fixed-width (8-character) digest; the generator is a pure function of its
arguments, so keys contain no randomness and are stable across process
restarts. -/
theorem C3_cache_key_deterministic (pfx version : String) (args : List PyVal)
    (kw1 kw2 : KwArgs)
    (hperm : (kw1.filter (fun p => !p.2.isNull)).Perm
      (kw2.filter (fun p => !p.2.isNull)))
    (hnd : ((kw1.filter (fun p => !p.2.isNull)).map Prod.fst).Nodup) :
    cache_key_generator pfx version args kw1 =
      cache_key_generator pfx version args kw2 ∧
    ∀ s : String, (md5hex8 s).length = 8 := by
  constructor
  · rw [keygen_suffix, keygen_suffix]
    have hiff : (kw1.filter (fun p => !p.2.isNull)).isEmpty
        = (kw2.filter (fun p => !p.2.isNull)).isEmpty := by
      cases h1 : kw1.filter (fun p => !p.2.isNull) with
      | nil =>
        cases h2 : kw2.filter (fun p => !p.2.isNull) with
        | nil => rfl
        | cons b m =>
          rw [h1, h2] at hperm
          simpa using hperm.length_eq
      | cons a l =>
        cases h2 : kw2.filter (fun p => !p.2.isNull) with
        | nil =>
          rw [h1, h2] at hperm
          simpa using hperm.length_eq
        | cons b m => rfl
    have hsort := sortByKey_eq_of_perm _ _ hperm hnd
    rw [hiff, hsort]
  · intro s
    simp [md5hex8, String.length]

/-- Witness for C3 at the spec's example: keyword maps supplied in the two
orders produce the identical key. -/
theorem C3_cache_key_deterministic_witness :
    (([("b", PyVal.int 2), ("a", PyVal.int 1)].filter
        (fun p => !p.2.isNull)).Perm
      ([("a", PyVal.int 1), ("b", PyVal.int 2)].filter
        (fun p => !p.2.isNull))) ∧
    (([("b", PyVal.int 2), ("a", PyVal.int 1)].filter
        (fun p => !p.2.isNull)).map Prod.fst).Nodup ∧
    (cache_key_generator "x" "v1" [] [("b", PyVal.int 2), ("a", PyVal.int 1)] =
        cache_key_generator "x" "v1" [] [("a", PyVal.int 1), ("b", PyVal.int 2)] ∧
      ∀ s : String, (md5hex8 s).length = 8) := by
  have hperm : (([("b", PyVal.int 2), ("a", PyVal.int 1)] : KwArgs).filter
      (fun p => !p.2.isNull)).Perm
      (([("a", PyVal.int 1), ("b", PyVal.int 2)] : KwArgs).filter
        (fun p => !p.2.isNull)) :=
    List.Perm.swap ("a", PyVal.int 1) ("b", PyVal.int 2) []
  have hnd : ((([("b", PyVal.int 2), ("a", PyVal.int 1)] : KwArgs).filter
      (fun p => !p.2.isNull)).map Prod.fst).Nodup := by
    show (["b", "a"] : List String).Nodup
    decide
  exact ⟨hperm, hnd, C3_cache_key_deterministic "x" "v1" [] _ _ hperm hnd⟩

/-- Claim C9: the key generator drops `None`-valued positional arguments
entirely: the key for any tuple equals the key for the same tuple with the
`None`s removed; in particular (1, None, 2) and (1, 2) yield the identical
key although they are distinct argument tuples, so distinct positional
tuples can map to the same cache key. -/
theorem C9_keygen_drops_none_args :
    (∀ (pfx version : String) (args : List PyVal) (kw : KwArgs),
      cache_key_generator pfx version args kw =
        cache_key_generator pfx version (args.filter (fun a => !a.isNull)) kw) ∧
    cache_key_generator "p" "v1" [PyVal.int 1, PyVal.null, PyVal.int 2] [] =
      cache_key_generator "p" "v1" [PyVal.int 1, PyVal.int 2] [] ∧
    [PyVal.int 1, PyVal.null, PyVal.int 2] ≠ [PyVal.int 1, PyVal.int 2] := by
  refine ⟨?_, rfl, ?_⟩
  · intro pfx version args kw
    unfold cache_key_generator
    rw [List.filter_filter]
    simp
  · intro h
    injection h with h1 h2
    injection h2 with h3 h4
    exact PyVal.noConfusion h3

/-- Claim C6: TTL resolution: an absent override, the empty string, a
negative override such as "-5" and a non-numeric override such as "abc" all
yield the hardcoded default; a present override that parses as a
non-negative integer yields exactly that value, in particular "45" yields
45. -/
theorem C6_ttl_resolution :
    (∀ d : Int, _get_cache_ttl Option.none d = d) ∧
    (∀ d : Int, _get_cache_ttl (some "") d = d) ∧
    (∀ d : Int, _get_cache_ttl (some "45") d = 45) ∧
    (∀ d : Int, _get_cache_ttl (some "-5") d = d) ∧
    (∀ d : Int, _get_cache_ttl (some "abc") d = d) ∧
    (∀ (s : String) (v d : Int), pyInt s = some v → 0 ≤ v →
      _get_cache_ttl (some s) d = v) := by
  refine ⟨fun d => rfl, fun d => rfl, fun d => rfl, fun d => rfl, fun d => rfl, ?_⟩
  intro s v d hv hnn
  have hs : s ≠ "" := by
    intro h
    subst h
    rw [show pyInt "" = (Option.none : Option Int) from rfl] at hv
    exact Option.noConfusion hv
  rw [show _get_cache_ttl (some s) d =
    (if s = "" then d
     else
       match pyInt s with
       | Option.none => d
       | some value => if value < 0 then d else value) from rfl]
  rw [if_neg hs, hv]
  show (if v < 0 then d else v) = v
  rw [if_neg (by omega)]

/-- Witness for C6: the override "7" parses as the non-negative integer 7 and
resolves to 7 over default 3. -/
theorem C6_ttl_resolution_witness :
    pyInt "7" = some 7 ∧ 0 ≤ (7 : Int) ∧ _get_cache_ttl (some "7") 3 = 7 :=
  ⟨rfl, by decide, C6_ttl_resolution.2.2.2.2.2 "7" 7 3 rfl (by decide)⟩
/-- Claim C7: hit_rate is hits/total_requests and miss_rate is
misses/total_requests, both 0 when total_requests is 0 (no division by
zero); avg_hit_time and avg_miss_time are the cumulative time sums divided
by the respective counts scaled to milliseconds, 0 when the count is 0;
after 3 hits and 1 miss (driven through the engine's `get`) hit_rate is
0.75, miss_rate 0.25 and total_requests 4; after `reset` every counter and
time sum is 0. -/
theorem C7_stats_arithmetic :
    (∀ s : CacheStats, s.total_requests = 0 → s.hit_rate = 0 ∧ s.miss_rate = 0) ∧
    (∀ s : CacheStats, s.total_requests ≠ 0 →
      s.hit_rate = (s.hits : ℚ) / (s.total_requests : ℚ) ∧
      s.miss_rate = (s.misses : ℚ) / (s.total_requests : ℚ)) ∧
    (∀ s : CacheStats, s.hits = 0 → s.avg_hit_time = 0) ∧
    (∀ s : CacheStats, s.hits ≠ 0 →
      s.avg_hit_time = s.hit_time_sum / (s.hits : ℚ) * 1000) ∧
    (∀ s : CacheStats, s.misses = 0 → s.avg_miss_time = 0) ∧
    (∀ s : CacheStats, s.misses ≠ 0 →
      s.avg_miss_time = s.miss_time_sum / (s.misses : ℚ) * 1000) ∧
    (∀ (s : CacheStats) (now : ℚ), (s.reset now).hits = 0 ∧
      (s.reset now).misses = 0 ∧ (s.reset now).errors = 0 ∧
      (s.reset now).total_requests = 0 ∧ (s.reset now).hit_time_sum = 0 ∧
      (s.reset now).miss_time_sum = 0) ∧
    ((runGets (fun k => if k = "h" then some ("1", Option.none) else Option.none)
        (CacheStats.init 0)
        [⟨true, "h", false, 0⟩, ⟨true, "h", false, 0⟩, ⟨true, "h", false, 0⟩,
         ⟨true, "m", false, 0⟩]).hits = 3 ∧
     (runGets (fun k => if k = "h" then some ("1", Option.none) else Option.none)
        (CacheStats.init 0)
        [⟨true, "h", false, 0⟩, ⟨true, "h", false, 0⟩, ⟨true, "h", false, 0⟩,
         ⟨true, "m", false, 0⟩]).misses = 1 ∧
     (runGets (fun k => if k = "h" then some ("1", Option.none) else Option.none)
        (CacheStats.init 0)
        [⟨true, "h", false, 0⟩, ⟨true, "h", false, 0⟩, ⟨true, "h", false, 0⟩,
         ⟨true, "m", false, 0⟩]).total_requests = 4 ∧
     (runGets (fun k => if k = "h" then some ("1", Option.none) else Option.none)
        (CacheStats.init 0)
        [⟨true, "h", false, 0⟩, ⟨true, "h", false, 0⟩, ⟨true, "h", false, 0⟩,
         ⟨true, "m", false, 0⟩]).hit_rate = 3 / 4 ∧
     (runGets (fun k => if k = "h" then some ("1", Option.none) else Option.none)
        (CacheStats.init 0)
        [⟨true, "h", false, 0⟩, ⟨true, "h", false, 0⟩, ⟨true, "h", false, 0⟩,
         ⟨true, "m", false, 0⟩]).miss_rate = 1 / 4) := by
  refine ⟨?_, ?_, ?_, ?_, ?_, ?_, ?_, ?_⟩
  · intro s h
    constructor
    · unfold CacheStats.hit_rate
      rw [if_pos h]
    · unfold CacheStats.miss_rate
      rw [if_pos h]
  · intro s h
    constructor
    · unfold CacheStats.hit_rate
      rw [if_neg h]
    · unfold CacheStats.miss_rate
      rw [if_neg h]
  · intro s h
    unfold CacheStats.avg_hit_time
    rw [if_pos h]
  · intro s h
    unfold CacheStats.avg_hit_time
    rw [if_neg h]
  · intro s h
    unfold CacheStats.avg_miss_time
    rw [if_pos h]
  · intro s h
    unfold CacheStats.avg_miss_time
    rw [if_neg h]
  · intro s now
    exact ⟨rfl, rfl, rfl, rfl, rfl, rfl⟩
  · have h3 : (runGets
        (fun k => if k = "h" then some ("1", Option.none) else Option.none)
        (CacheStats.init 0)
        [⟨true, "h", false, 0⟩, ⟨true, "h", false, 0⟩, ⟨true, "h", false, 0⟩,
         ⟨true, "m", false, 0⟩]).hits = 3 := rfl
    have h1 : (runGets
        (fun k => if k = "h" then some ("1", Option.none) else Option.none)
        (CacheStats.init 0)
        [⟨true, "h", false, 0⟩, ⟨true, "h", false, 0⟩, ⟨true, "h", false, 0⟩,
         ⟨true, "m", false, 0⟩]).misses = 1 := rfl
    have h4 : (runGets
        (fun k => if k = "h" then some ("1", Option.none) else Option.none)
        (CacheStats.init 0)
        [⟨true, "h", false, 0⟩, ⟨true, "h", false, 0⟩, ⟨true, "h", false, 0⟩,
         ⟨true, "m", false, 0⟩]).total_requests = 4 := rfl
    refine ⟨h3, h1, h4, ?_, ?_⟩
    · unfold CacheStats.hit_rate
      rw [h3, h4]
      norm_num
    · unfold CacheStats.miss_rate
      rw [h1, h4]
      norm_num

/-- Witness for C7 at the stats record reached after 3 hits and 1 miss. -/
theorem C7_stats_arithmetic_witness :
    ({ hits := 3, misses := 1, errors := 0, total_requests := 4,
       hit_time_sum := 0, miss_time_sum := 0, last_reset := 0 } :
        CacheStats).total_requests ≠ 0 ∧
    (({ hits := 3, misses := 1, errors := 0, total_requests := 4,
        hit_time_sum := 0, miss_time_sum := 0, last_reset := 0 } :
        CacheStats).hit_rate = ((3 : ℚ)) / ((4 : ℚ)) ∧
      ({ hits := 3, misses := 1, errors := 0, total_requests := 4,
         hit_time_sum := 0, miss_time_sum := 0, last_reset := 0 } :
        CacheStats).miss_rate = ((1 : ℚ)) / ((4 : ℚ))) := by
  have h := C7_stats_arithmetic.2.1
    { hits := 3, misses := 1, errors := 0, total_requests := 4,
      hit_time_sum := 0, miss_time_sum := 0, last_reset := 0 } (by decide)
  exact ⟨by decide, by simpa using h⟩

/-- Claim C4: when the engine reports disconnected, `get(key, default)`
returns the default without raising and increments only the error counter
(not misses, not total_requests — the returned stats record differs from
the input only in `errors`); and under the same condition the cache-aside
wrapper skips caching entirely, invoking the producer once directly and
returning its result with the engine state untouched. -/
theorem C4_fail_open_disconnected (st : RedisState) (key : String) (dflt : JVal)
    (f : Bool) (e : ℚ) (cfg : CacheConfig)
    (key_func : Option (List PyVal → KwArgs → String)) (fn : String)
    (producer : List PyVal → KwArgs → PyVal) (args : List PyVal) (kw : KwArgs)
    (gF sF : Bool) (h : st.connected = false) :
    RedisCache.get st key dflt f e =
      (dflt, { st.stats with errors := st.stats.errors + 1 }) ∧
    cache_aside_wrapper cfg key_func fn producer st args kw gF sF e =
      ⟨producer args kw, st, 1⟩ := by
  constructor
  · unfold RedisCache.get
    rw [if_pos h]
  · unfold cache_aside_wrapper
    rw [if_pos h]

/-- Witness for C4: a disconnected engine returns default 42 from `get` and
the wrapper still invokes and returns the producer's result. -/
theorem C4_fail_open_disconnected_witness :
    ((⟨false, fun _ => Option.none, CacheStats.init 0⟩ : RedisState).connected
      = false) ∧
    (RedisCache.get ⟨false, fun _ => Option.none, CacheStats.init 0⟩ "k"
        (JVal.num 42) false 0 =
      (JVal.num 42,
        { (CacheStats.init 0) with errors := (CacheStats.init 0).errors + 1 }) ∧
     cache_aside_wrapper ⟨300, "", "v1"⟩ Option.none "f"
        (fun _ _ => PyVal.int 7)
        ⟨false, fun _ => Option.none, CacheStats.init 0⟩ [] [] false false 0 =
      ⟨PyVal.int 7, ⟨false, fun _ => Option.none, CacheStats.init 0⟩, 1⟩) :=
  ⟨rfl, C4_fail_open_disconnected ⟨false, fun _ => Option.none, CacheStats.init 0⟩
    "k" (JVal.num 42) false 0 ⟨300, "", "v1"⟩ Option.none "f"
    (fun _ _ => PyVal.int 7) [] [] false false rfl⟩

/-- Unfolding of the wrapper on a connected engine: key computation, engine
`get`, hit short-circuit, producer call, conditional `set`. -/
theorem wrapper_connected_eq (cfg : CacheConfig)
    (key_func : Option (List PyVal → KwArgs → String)) (fn : String)
    (producer : List PyVal → KwArgs → PyVal) (st : RedisState)
    (args : List PyVal) (kw : KwArgs) (gF sF : Bool) (e : ℚ)
    (hc : st.connected = true) :
    cache_aside_wrapper cfg key_func fn producer st args kw gF sF e =
      (if (RedisCache.get st (cache_aside_key cfg key_func fn args kw)
            JVal.null gF e).1.isNull = false
       then ⟨ofJson (RedisCache.get st (cache_aside_key cfg key_func fn args kw)
              JVal.null gF e).1,
             { st with stats := (RedisCache.get st
                (cache_aside_key cfg key_func fn args kw) JVal.null gF e).2 }, 0⟩
       else if (producer args kw).isNull = false
       then ⟨producer args kw,
             (RedisCache.set { st with stats := (RedisCache.get st
                (cache_aside_key cfg key_func fn args kw) JVal.null gF e).2 }
               (cache_aside_key cfg key_func fn args kw) (producer args kw)
               (some cfg.get_ttl_seconds) sF).2, 1⟩
       else ⟨producer args kw,
             { st with stats := (RedisCache.get st
                (cache_aside_key cfg key_func fn args kw) JVal.null gF e).2 }, 1⟩) := by
  unfold cache_aside_wrapper
  rw [if_neg (by simp [hc])]

/-- Claim C1: on a connected engine, the cache-aside wrapper behaves as the
spec's algorithm: when the engine's `get` for the computed key returns a
non-`None` cached value, the wrapper returns that value without invoking the
producer and leaves the keyspace untouched; when the engine returns `None`
(miss), the wrapper invokes the producer exactly once and returns its result
regardless of whether the store succeeded, and the result is stored under
the computed key with the configured TTL exactly when it is not `None` (a
`None` result is never stored; a store fault leaves the keyspace
unchanged while the result is still returned). -/
theorem C1_cache_aside_spec (cfg : CacheConfig)
    (key_func : Option (List PyVal → KwArgs → String)) (fn : String)
    (producer : List PyVal → KwArgs → PyVal) (st : RedisState)
    (args : List PyVal) (kw : KwArgs) (gF sF : Bool) (e : ℚ)
    (hc : st.connected = true) :
    ((RedisCache.get st (cache_aside_key cfg key_func fn args kw)
        JVal.null gF e).1.isNull = false →
      cache_aside_wrapper cfg key_func fn producer st args kw gF sF e =
        ⟨ofJson (RedisCache.get st (cache_aside_key cfg key_func fn args kw)
            JVal.null gF e).1,
          { st with stats := (RedisCache.get st
              (cache_aside_key cfg key_func fn args kw) JVal.null gF e).2 },
          0⟩) ∧
    ((RedisCache.get st (cache_aside_key cfg key_func fn args kw)
        JVal.null gF e).1.isNull = true →
      (cache_aside_wrapper cfg key_func fn producer st args kw gF sF e).calls = 1 ∧
      (cache_aside_wrapper cfg key_func fn producer st args kw gF sF e).value =
        producer args kw ∧
      ((producer args kw).isNull = true →
        (cache_aside_wrapper cfg key_func fn producer st args kw gF sF e).state =
          { st with stats := (RedisCache.get st
              (cache_aside_key cfg key_func fn args kw) JVal.null gF e).2 }) ∧
      ((producer args kw).isNull = false → sF = false →
        (cache_aside_wrapper cfg key_func fn producer st args kw gF sF e).state.store =
          fun k2 =>
            if k2 = cache_aside_key cfg key_func fn args kw then
              some (_serialize (producer args kw), some cfg.get_ttl_seconds)
            else st.store k2) ∧
      ((producer args kw).isNull = false → sF = true →
        (cache_aside_wrapper cfg key_func fn producer st args kw gF sF e).state.store =
          st.store)) := by
  rw [wrapper_connected_eq cfg key_func fn producer st args kw gF sF e hc]
  constructor
  · intro hnull
    rw [if_pos hnull]
  · intro hnull
    rw [if_neg (by simp [hnull])]
    refine ⟨?_, ?_, ?_, ?_, ?_⟩
    · by_cases hp : (producer args kw).isNull = false
      · rw [if_pos hp]
      · rw [if_neg hp]
    · by_cases hp : (producer args kw).isNull = false
      · rw [if_pos hp]
      · rw [if_neg hp]
    · intro hp
      rw [if_neg (by simp [hp])]
    · intro hp hsF
      rw [if_pos hp]
      show (RedisCache.set { st with stats := (RedisCache.get st
          (cache_aside_key cfg key_func fn args kw) JVal.null gF e).2 }
          (cache_aside_key cfg key_func fn args kw) (producer args kw)
          (some cfg.get_ttl_seconds) sF).2.store = _
      unfold RedisCache.set
      rw [if_neg (by simp [hc]), hsF, if_neg (by simp)]
    · intro hp hsF
      rw [if_pos hp]
      show (RedisCache.set { st with stats := (RedisCache.get st
          (cache_aside_key cfg key_func fn args kw) JVal.null gF e).2 }
          (cache_aside_key cfg key_func fn args kw) (producer args kw)
          (some cfg.get_ttl_seconds) sF).2.store = _
      unfold RedisCache.set
      rw [if_neg (by simp [hc]), hsF, if_pos rfl]

/-- Witness for C1: a first call on a connected engine with an empty keyspace
misses, invokes the producer once, returns its result and stores it under
the computed key with the configured TTL. -/
theorem C1_cache_aside_spec_witness :
    ((⟨true, fun _ => Option.none, CacheStats.init 0⟩ : RedisState).connected
      = true) ∧
    (RedisCache.get ⟨true, fun _ => Option.none, CacheStats.init 0⟩
        (cache_aside_key ⟨300, "", "v1"⟩ Option.none "f" [] [])
        JVal.null false 0).1.isNull = true ∧
    ((cache_aside_wrapper ⟨300, "", "v1"⟩ Option.none "f"
        (fun _ _ => PyVal.int 5) ⟨true, fun _ => Option.none, CacheStats.init 0⟩
        [] [] false false 0).calls = 1 ∧
     (cache_aside_wrapper ⟨300, "", "v1"⟩ Option.none "f"
        (fun _ _ => PyVal.int 5) ⟨true, fun _ => Option.none, CacheStats.init 0⟩
        [] [] false false 0).value = PyVal.int 5 ∧
     (cache_aside_wrapper ⟨300, "", "v1"⟩ Option.none "f"
        (fun _ _ => PyVal.int 5) ⟨true, fun _ => Option.none, CacheStats.init 0⟩
        [] [] false false 0).state.store =
       fun k2 =>
         if k2 = cache_aside_key ⟨300, "", "v1"⟩ Option.none "f" [] [] then
           some (_serialize ((fun (_ : List PyVal) (_ : KwArgs) => PyVal.int 5) [] []),
             some (CacheConfig.get_ttl_seconds ⟨300, "", "v1"⟩))
         else (⟨true, fun _ => Option.none, CacheStats.init 0⟩ : RedisState).store k2) := by
  have h := C1_cache_aside_spec ⟨300, "", "v1"⟩ Option.none "f"
    (fun _ _ => PyVal.int 5) ⟨true, fun _ => Option.none, CacheStats.init 0⟩
    [] [] false false 0 rfl
  exact ⟨rfl, rfl, (h.2 rfl).1, (h.2 rfl).2.1, (h.2 rfl).2.2.2.1 rfl rfl⟩

/-- Claim C2 is violated by the code (code bug): the guard
`args and hasattr(args[0], "__class__")` on cache.py line 485 is true for
every Python value (every object has `__class__`), so the wrapper drops the
first positional argument from the default cache key for every call,
including plain non-method producers — the code's own comment says the
intent is to skip `self` for instance methods only.  Hence the keys for
arguments (1,2) and (5,2) coincide ("f:v1:2"), and after caching f(1,2)=3 a
call f(5,2) returns the cached 3 with zero producer invocations, although
the producer at (5,2) would return 7. -/
theorem C2_first_positional_arg_dropped :
    cache_aside_key ⟨300, "", "v1"⟩ Option.none "f"
      [PyVal.int 1, PyVal.int 2] [] = "f:v1:2" ∧
    cache_aside_key ⟨300, "", "v1"⟩ Option.none "f"
      [PyVal.int 5, PyVal.int 2] [] = "f:v1:2" ∧
    (let prod : List PyVal → KwArgs → PyVal := fun args _ =>
       match args with
       | [PyVal.int a, PyVal.int b] => PyVal.int (a + b)
       | _ => PyVal.null
     let st0 : RedisState := ⟨true, fun _ => Option.none, CacheStats.init 0⟩
     let r1 := cache_aside_wrapper ⟨300, "", "v1"⟩ Option.none "f" prod st0
       [PyVal.int 1, PyVal.int 2] [] false false 0
     let r2 := cache_aside_wrapper ⟨300, "", "v1"⟩ Option.none "f" prod r1.state
       [PyVal.int 5, PyVal.int 2] [] false false 0
     r1.value = PyVal.int 3 ∧ r1.calls = 1 ∧
     prod [PyVal.int 5, PyVal.int 2] [] = PyVal.int 7 ∧
     r2.value = PyVal.int 3 ∧ r2.calls = 0) :=
  ⟨rfl, rfl, rfl, rfl, rfl, rfl, rfl⟩

/-- Counterexample to C8 as stated: because the wrapper always drops the
first positional argument from the key, arguments (1,2) and (5,2) share one
key; invalidating for (1,2) therefore removes the cached entry that a call
with the different arguments (5,2) stored — it is not left unchanged. -/
theorem C8_invalidation_counterexample :
    cache_aside_key ⟨300, "", "v1"⟩ Option.none "f"
        [PyVal.int 5, PyVal.int 2] [] =
      cache_aside_key ⟨300, "", "v1"⟩ Option.none "f"
        [PyVal.int 1, PyVal.int 2] [] ∧
    (let k52 := cache_aside_key ⟨300, "", "v1"⟩ Option.none "f"
       [PyVal.int 5, PyVal.int 2] []
     let st : RedisState :=
       ⟨true, fun k => if k = k52 then some ("9", Option.none) else Option.none,
        CacheStats.init 0⟩
     let r := _invalidate_cache ⟨300, "", "v1"⟩ Option.none "f" st
       [PyVal.int 1, PyVal.int 2] [] false
     st.store k52 = some ("9", Option.none) ∧ r.1 = true ∧
       r.2.store k52 = Option.none) :=
  ⟨rfl, rfl, rfl, rfl⟩

/-- Claim C8 (amended): the invalidation operation recomputes exactly the
same cache key as the wrapper (same key-generation function, prefix,
version, first-argument drop, keyword handling), issues a delete for that
single key against the resolved engine, returns true iff a key was actually
removed, leaves the stats untouched, and leaves every entry stored under a
*different key* unchanged (distinct arguments may share a key because the
first positional argument is always dropped, so the frame guarantee holds
per key, not per argument tuple). -/
theorem C8_invalidate_spec (cfg : CacheConfig)
    (key_func : Option (List PyVal → KwArgs → String)) (fn : String)
    (st : RedisState) (args : List PyVal) (kw : KwArgs)
    (hc : st.connected = true) :
    invalidate_key cfg key_func fn args kw =
      cache_aside_key cfg key_func fn args kw ∧
    ((_invalidate_cache cfg key_func fn st args kw false).1 = true ↔
      (st.store (cache_aside_key cfg key_func fn args kw)).isSome = true) ∧
    (_invalidate_cache cfg key_func fn st args kw false).2.store
      (cache_aside_key cfg key_func fn args kw) = Option.none ∧
    (∀ k2, k2 ≠ cache_aside_key cfg key_func fn args kw →
      (_invalidate_cache cfg key_func fn st args kw false).2.store k2 =
        st.store k2) ∧
    (_invalidate_cache cfg key_func fn st args kw false).2.stats = st.stats := by
  have hkey : invalidate_key cfg key_func fn args kw =
      cache_aside_key cfg key_func fn args kw := rfl
  unfold _invalidate_cache RedisCache.delete
  rw [hkey, if_neg (by simp [hc]), if_neg (by simp)]
  cases hk : st.store (cache_aside_key cfg key_func fn args kw) with
  | none =>
    refine ⟨rfl, ?_, ?_, ?_, rfl⟩
    · simp
    · exact hk
    · intro k2 _
      rfl
  | some entry =>
    refine ⟨rfl, ?_, ?_, ?_, rfl⟩
    · simp
    · show (if (cache_aside_key cfg key_func fn args kw) =
          (cache_aside_key cfg key_func fn args kw) then Option.none
        else st.store (cache_aside_key cfg key_func fn args kw)) = Option.none
      rw [if_pos rfl]
    · intro k2 hne
      show (if k2 = cache_aside_key cfg key_func fn args kw then Option.none
        else st.store k2) = st.store k2
      rw [if_neg hne]

/-- Witness for C8 (amended): invalidating (1,2) on a keyspace holding the
key for (1,2) and an unrelated key "q" removes exactly the computed key,
returns true, and leaves "q" untouched. -/
theorem C8_invalidate_spec_witness :
    ((⟨true,
        fun k => if k = "q" then some ("7", Option.none)
          else if k = cache_aside_key ⟨300, "", "v1"⟩ Option.none "f"
              [PyVal.int 1, PyVal.int 2] [] then some ("3", Option.none)
          else Option.none,
        CacheStats.init 0⟩ : RedisState).connected = true) ∧
    ((_invalidate_cache ⟨300, "", "v1"⟩ Option.none "f"
        ⟨true,
         fun k => if k = "q" then some ("7", Option.none)
           else if k = cache_aside_key ⟨300, "", "v1"⟩ Option.none "f"
               [PyVal.int 1, PyVal.int 2] [] then some ("3", Option.none)
           else Option.none,
         CacheStats.init 0⟩ [PyVal.int 1, PyVal.int 2] [] false).1 = true ∧
     (_invalidate_cache ⟨300, "", "v1"⟩ Option.none "f"
        ⟨true,
         fun k => if k = "q" then some ("7", Option.none)
           else if k = cache_aside_key ⟨300, "", "v1"⟩ Option.none "f"
               [PyVal.int 1, PyVal.int 2] [] then some ("3", Option.none)
           else Option.none,
         CacheStats.init 0⟩ [PyVal.int 1, PyVal.int 2] [] false).2.store
       (cache_aside_key ⟨300, "", "v1"⟩ Option.none "f"
         [PyVal.int 1, PyVal.int 2] []) = Option.none ∧
     (_invalidate_cache ⟨300, "", "v1"⟩ Option.none "f"
        ⟨true,
         fun k => if k = "q" then some ("7", Option.none)
           else if k = cache_aside_key ⟨300, "", "v1"⟩ Option.none "f"
               [PyVal.int 1, PyVal.int 2] [] then some ("3", Option.none)
           else Option.none,
         CacheStats.init 0⟩ [PyVal.int 1, PyVal.int 2] [] false).2.store "q" =
       some ("7", Option.none)) := by
  have h := C8_invalidate_spec ⟨300, "", "v1"⟩ Option.none "f"
    ⟨true,
     fun k => if k = "q" then some ("7", Option.none)
       else if k = cache_aside_key ⟨300, "", "v1"⟩ Option.none "f"
           [PyVal.int 1, PyVal.int 2] [] then some ("3", Option.none)
       else Option.none,
     CacheStats.init 0⟩ [PyVal.int 1, PyVal.int 2] [] rfl
  refine ⟨rfl, ?_, h.2.2.1, ?_⟩
  · apply h.2.1.mpr
    rfl
  · rw [h.2.2.2.1 "q" (by decide)]
    rfl

theorem applyGet_disconnected (store : String → Option (String × Option Int))
    (t : CacheStats) (op : GetOp) (h : op.conn = false) :
    applyGet store t op = { t with errors := t.errors + 1 } := by
  unfold applyGet RedisCache.get
  simp [h]

theorem applyGet_step (store : String → Option (String × Option Int))
    (s : CacheStats) (op : GetOp) :
    (applyGet store s op).hits + (applyGet store s op).misses +
      (if op.conn && op.fault then 1 else 0) + s.total_requests =
    (applyGet store s op).total_requests + s.hits + s.misses := by
  unfold applyGet RedisCache.get
  cases hconn : op.conn with
  | false => simp; omega
  | true =>
    cases hfault : op.fault with
    | true => simp; omega
    | false =>
      simp only [Bool.and_false, if_false, Bool.false_eq_true]
      cases hk : store op.key with
      | none => simp [hk]; omega
      | some entry =>
        cases hd : _deserialize entry.1 with
        | none => simp [hk, hd]; omega
        | some v => simp [hk, hd]; omega

theorem applyGet_time (store : String → Option (String × Option Int))
    (s : CacheStats) (op : GetOp) :
    ((applyGet store s op).hit_time_sum = s.hit_time_sum ∨
     (applyGet store s op).hit_time_sum = s.hit_time_sum + op.elapsed) ∧
    ((applyGet store s op).miss_time_sum = s.miss_time_sum ∨
     (applyGet store s op).miss_time_sum = s.miss_time_sum + op.elapsed) := by
  unfold applyGet RedisCache.get
  cases hconn : op.conn with
  | false => simp
  | true =>
    cases hfault : op.fault with
    | true => simp
    | false =>
      simp only [Bool.false_eq_true, if_false]
      cases hk : store op.key with
      | none => simp [hk]
      | some entry =>
        cases hd : _deserialize entry.1 with
        | none => simp [hk, hd]
        | some v => simp [hk, hd]

theorem runGets_count (store : String → Option (String × Option Int)) :
    ∀ (ops : List GetOp) (s : CacheStats),
    (runGets store s ops).hits + (runGets store s ops).misses +
      fetchFaults ops + s.total_requests =
    (runGets store s ops).total_requests + s.hits + s.misses := by
  intro ops
  induction ops with
  | nil =>
    intro s
    simp [runGets, fetchFaults]
    omega
  | cons op ops ih =>
    intro s
    have hstep := applyGet_step store s op
    have hih := ih (applyGet store s op)
    have hff : fetchFaults (op :: ops) =
        (if op.conn && op.fault then 1 else 0) + fetchFaults ops := by
      unfold fetchFaults
      rw [List.filter_cons]
      split
      · simp [List.length_cons]
        omega
      · simp
    rw [show runGets store s (op :: ops) =
      runGets store (applyGet store s op) ops from rfl, hff]
    omega

theorem runGets_time_nonneg (store : String → Option (String × Option Int)) :
    ∀ (ops : List GetOp) (s : CacheStats), (∀ op ∈ ops, 0 ≤ op.elapsed) →
    0 ≤ s.hit_time_sum → 0 ≤ s.miss_time_sum →
    0 ≤ (runGets store s ops).hit_time_sum ∧
    0 ≤ (runGets store s ops).miss_time_sum := by
  intro ops
  induction ops with
  | nil =>
    intro s _ h1 h2
    exact ⟨h1, h2⟩
  | cons op ops ih =>
    intro s hall h1 h2
    have hop : 0 ≤ op.elapsed := hall op (List.mem_cons_self op ops)
    obtain ⟨ht, hm⟩ := applyGet_time store s op
    refine ih (applyGet store s op) (fun o ho => hall o (List.mem_cons_of_mem op ho)) ?_ ?_
    · rcases ht with h | h <;> rw [h] <;> linarith
    · rcases hm with h | h <;> rw [h] <;> linarith

/-- Claim C10 (amended): starting from fresh statistics, after any sequence
of `get` operations hits + misses + (number of connected gets whose remote
fetch raised) = total_requests, hence hits + misses ≤ total_requests and
hit_rate + miss_rate ≤ 1; the cumulative time sums stay non-negative (all
Nat counters are non-negative by type); a `get` issued while disconnected
increments only the error counter.  The deficit is exactly the fetch faults:
an exception while deserializing an already-fetched payload increments hits
and errors, not misses, so it keeps hits + misses = total_requests rather
than making the inequality strict as the claim stated. -/
theorem C10_stats_invariant (store : String → Option (String × Option Int))
    (now : ℚ) (ops : List GetOp) (h : ∀ op ∈ ops, 0 ≤ op.elapsed) :
    (runGets store (CacheStats.init now) ops).hits +
        (runGets store (CacheStats.init now) ops).misses + fetchFaults ops =
      (runGets store (CacheStats.init now) ops).total_requests ∧
    (runGets store (CacheStats.init now) ops).hits +
        (runGets store (CacheStats.init now) ops).misses ≤
      (runGets store (CacheStats.init now) ops).total_requests ∧
    (runGets store (CacheStats.init now) ops).hit_rate +
        (runGets store (CacheStats.init now) ops).miss_rate ≤ 1 ∧
    0 ≤ (runGets store (CacheStats.init now) ops).hit_time_sum ∧
    0 ≤ (runGets store (CacheStats.init now) ops).miss_time_sum ∧
    (∀ (t : CacheStats) (op : GetOp), op.conn = false →
      applyGet store t op = { t with errors := t.errors + 1 }) := by
  have hcount := runGets_count store ops (CacheStats.init now)
  rw [show (CacheStats.init now).total_requests = 0 from rfl,
    show (CacheStats.init now).hits = 0 from rfl,
    show (CacheStats.init now).misses = 0 from rfl] at hcount
  have h1 : (runGets store (CacheStats.init now) ops).hits +
      (runGets store (CacheStats.init now) ops).misses + fetchFaults ops =
      (runGets store (CacheStats.init now) ops).total_requests := by
    omega
  have h2 : (runGets store (CacheStats.init now) ops).hits +
      (runGets store (CacheStats.init now) ops).misses ≤
      (runGets store (CacheStats.init now) ops).total_requests := by
    omega
  have htime := runGets_time_nonneg store ops (CacheStats.init now) h
    (le_refl 0) (le_refl 0)
  refine ⟨h1, h2, ?_, htime.1, htime.2, fun t op hop => applyGet_disconnected store t op hop⟩
  rcases Nat.eq_zero_or_pos (runGets store (CacheStats.init now) ops).total_requests
    with h0 | hpos
  · unfold CacheStats.hit_rate CacheStats.miss_rate
    rw [if_pos h0, if_pos h0]
    norm_num
  · unfold CacheStats.hit_rate CacheStats.miss_rate
    rw [if_neg (by omega), if_neg (by omega), div_add_div_same,
      div_le_one (by exact_mod_cast hpos)]
    exact_mod_cast h2

/-- Witness for C10 at a two-operation sequence: one disconnected get and one
connected get whose remote fetch raises. -/
theorem C10_stats_invariant_witness :
    (∀ op ∈ [(⟨false, "k", false, 0⟩ : GetOp), ⟨true, "k", true, 1⟩],
      0 ≤ op.elapsed) ∧
    ((runGets (fun _ => Option.none) (CacheStats.init 0)
        [⟨false, "k", false, 0⟩, ⟨true, "k", true, 1⟩]).hits +
      (runGets (fun _ => Option.none) (CacheStats.init 0)
        [⟨false, "k", false, 0⟩, ⟨true, "k", true, 1⟩]).misses +
      fetchFaults [⟨false, "k", false, 0⟩, ⟨true, "k", true, 1⟩] =
      (runGets (fun _ => Option.none) (CacheStats.init 0)
        [⟨false, "k", false, 0⟩, ⟨true, "k", true, 1⟩]).total_requests) := by
  have hall : ∀ op ∈ [(⟨false, "k", false, 0⟩ : GetOp), ⟨true, "k", true, 1⟩],
      0 ≤ op.elapsed := by
    intro op hop
    rcases List.mem_cons.mp hop with rfl | hop2
    · norm_num
    · rcases List.mem_cons.mp hop2 with rfl | hop3
      · norm_num
      · exact absurd hop3 (by simp)
  exact ⟨hall, (C10_stats_invariant (fun _ => Option.none) 0
    [⟨false, "k", false, 0⟩, ⟨true, "k", true, 1⟩] hall).1⟩

/-- Counterexample to C10 as stated: a connected get of a key holding a
malformed payload raises during deserialization; this increments hits,
errors and total_requests (not misses), so an exception occurred during a
connected get yet hits + misses = total_requests — the inequality is not
strict, contradicting the claim's "strict inequality exactly when an
exception occurred ... which increments total_requests and errors but
neither hits nor misses". -/
theorem C10_decode_error_counterexample :
    (runGets (fun k => if k = "k" then some ("x", Option.none) else Option.none)
      (CacheStats.init 0) [⟨true, "k", false, 0⟩]).errors = 1 ∧
    (runGets (fun k => if k = "k" then some ("x", Option.none) else Option.none)
      (CacheStats.init 0) [⟨true, "k", false, 0⟩]).hits = 1 ∧
    (runGets (fun k => if k = "k" then some ("x", Option.none) else Option.none)
      (CacheStats.init 0) [⟨true, "k", false, 0⟩]).misses = 0 ∧
    (runGets (fun k => if k = "k" then some ("x", Option.none) else Option.none)
      (CacheStats.init 0) [⟨true, "k", false, 0⟩]).total_requests = 1 ∧
    ¬ (runGets (fun k => if k = "k" then some ("x", Option.none) else Option.none)
        (CacheStats.init 0) [⟨true, "k", false, 0⟩]).hits +
      (runGets (fun k => if k = "k" then some ("x", Option.none) else Option.none)
        (CacheStats.init 0) [⟨true, "k", false, 0⟩]).misses <
      (runGets (fun k => if k = "k" then some ("x", Option.none) else Option.none)
        (CacheStats.init 0) [⟨true, "k", false, 0⟩]).total_requests :=
  ⟨rfl, rfl, rfl, rfl, by decide⟩
